import Mathlib

/-!
Shallow embedding of the word-search placement solver from
`src/wordsearch.cpp`, together with theorems checking the
natural-language specification against it.

Modelling conventions:
* `vector<string>` grids become `List (List Char)`; cells are addressed by
  `Int` coordinates exactly as the C++ uses `int` row/column indices.
* Reads of cells that do not exist in the grid value return the sentinel
  `'?'` and writes to them are no-ops.  In the C++ such accesses are
  undefined behaviour; every solver call site guards them with
  `isInBounds`/`canPlaceWord`, so on the defined paths the model agrees
  with the source.
* The wall clock polled by `hasTimedOut` is modelled by a function
  `clock : Nat → Int` giving the elapsed milliseconds observed at the
  n-th call of `hasTimedOut`; the solver threads the call counter.
* The random generator used by the fill step at the end of
  `generateWordSearch` is modelled by a stream `rng : Nat → Nat`; the
  k-th filled cell receives letter `'A' + rng k % 26`, matching
  `uniform_int_distribution<int>(0, 25)` up to the distribution.
* `std::sort` is modelled by an insertion sort producing a sequence
  ordered by the same comparator; the C++ standard does not fix the
  relative order of comparator-equal elements, and no theorem below
  depends on it.
-/

namespace WordSearch

/-- A word is its list of characters (C++ `std::string`). -/
abbrev Word := List Char

/-- A grid is a list of rows of characters (C++ `vector<string>`). -/
abbrev Grid := List (List Char)

/-- `struct WordPlacement` from the source. -/
structure WordPlacement where
  word : Word
  row : Int
  col : Int
  delta_row : Int
  delta_col : Int
deriving DecidableEq, Repr

/-- `struct PuzzleResult` from the source. -/
structure PuzzleResult where
  grid : Grid
  placements : List WordPlacement
  placed_words : List Word
  unplaced_words : List Word
  num_placed : Nat
  total_overlap_score : Nat
deriving Repr

/-- The 8 direction vectors, in the source's `DIRECTIONS` order. -/
def DIRECTIONS : List (Int × Int) :=
  [(0,1), (0,-1), (1,0), (-1,0), (1,1), (1,-1), (-1,1), (-1,-1)]

/-- `isInBounds(r, c)` with grid dimensions `R × C`. -/
def isInBounds (R C : Nat) (r c : Int) : Prop :=
  0 ≤ r ∧ r < (R : Int) ∧ 0 ≤ c ∧ c < (C : Int)

instance (R C : Nat) (r c : Int) : Decidable (isInBounds R C r c) := by
  unfold isInBounds; infer_instance

/-- `hasTimedOut()`: the source compares the elapsed milliseconds against
`MAX_RUNTIME_MS` with `>=`. -/
def hasTimedOut (elapsed limit : Int) : Bool :=
  limit ≤ elapsed

/-- Read cell `(r, c)`; `'?'` for coordinates outside the grid value
(undefined behaviour in the source, which never reads unguarded). -/
def getCell (g : Grid) (r c : Int) : Char :=
  if 0 ≤ r ∧ 0 ≤ c then (g.getD r.toNat []).getD c.toNat '?' else '?'

/-- Write cell `(r, c)` at a nonnegative row index. -/
def setCellNat (g : Grid) (r : Nat) (c : Nat) (ch : Char) : Grid :=
  match g, r with
  | [], _ => []
  | row :: rest, 0 => row.set c ch :: rest
  | row :: rest, Nat.succ r' => row :: setCellNat rest r' c ch

/-- Write cell `(r, c)`; a no-op outside the grid value (undefined
behaviour in the source, which only writes cells validated by
`canPlaceWord`). -/
def setCell (g : Grid) (r c : Int) (ch : Char) : Grid :=
  if 0 ≤ r ∧ 0 ≤ c then setCellNat g r.toNat c.toNat ch else g

/-- Loop body of `canPlaceWord`: walks the word accumulating
`overlap_count` (the `acc` argument), mirroring the source's loop. -/
def canPlaceAux (R C : Nat) (g : Grid) (w : Word) (r c dr dc : Int)
    (acc : Nat) : Bool × Nat :=
  match w with
  | [] => (true, acc)
  | ch :: rest =>
    if isInBounds R C r c then
      let existing := getCell g r c
      if existing ≠ '.' ∧ existing ≠ ch then (false, acc)
      else
        canPlaceAux R C g rest (r + dr) (c + dc) dr dc
          (acc + if existing = ch then 1 else 0)
    else (false, acc)

/-- `canPlaceWord(grid, word, r, c, dr, dc, overlap_count)`: returns the
`bool` result paired with the final `overlap_count`. -/
def canPlaceWord (R C : Nat) (g : Grid) (w : Word) (r c dr dc : Int) :
    Bool × Nat :=
  canPlaceAux R C g w r c dr dc 0

/-- `placeWord(grid, word, r, c, dr, dc)`. -/
def placeWord (g : Grid) (w : Word) (r c dr dc : Int) : Grid :=
  match w with
  | [] => g
  | ch :: rest => placeWord (setCell g r c ch) rest (r + dr) (c + dc) dr dc

/-- Bump a usage counter at `(r, c)` (the `overlap_map[rr][cc]++`). -/
def bump (m : Int → Int → Nat) (r c : Int) : Int → Int → Nat :=
  fun r' c' => if r' = r ∧ c' = c then m r' c' + 1 else m r' c'

/-- Walk one placement's cells, bumping in-bounds cells, as in the first
loop of `calculateOverlapScore`. -/
def bumpWalk (R C : Nat) (m : Int → Int → Nat) (w : Word) (r c dr dc : Int) :
    Int → Int → Nat :=
  match w with
  | [] => m
  | _ :: rest =>
    bumpWalk R C (if isInBounds R C r c then bump m r c else m)
      rest (r + dr) (c + dc) dr dc

/-- Sum `f 0 + f 1 + ... + f (n-1)`. -/
def sumN (n : Nat) (f : Nat → Nat) : Nat :=
  match n with
  | 0 => 0
  | Nat.succ n' => sumN n' f + f n'

/-- `calculateOverlapScore(placements)` over an `R × C` counter map. -/
def calculateOverlapScore (R C : Nat) (ps : List WordPlacement) : Nat :=
  if ps = [] then 0
  else
    let m := ps.foldl
      (fun m p => bumpWalk R C m p.word p.row p.col p.delta_row p.delta_col)
      (fun _ _ => 0)
    sumN R (fun r => sumN C (fun c =>
      if m (r : Int) (c : Int) > 1 then m (r : Int) (c : Int) - 1 else 0))

/-- Insert into a list sorted by `le` (model component of `std::sort`). -/
def insertSorted {α : Type} (le : α → α → Bool) (x : α) : List α → List α
  | [] => [x]
  | y :: ys => if le x y then x :: y :: ys else y :: insertSorted le x ys

/-- Insertion sort.  Models `std::sort`: it produces a permutation of its
input ordered by the comparator; the C++ standard leaves the relative
order of comparator-equal elements unspecified, and nothing below
depends on it. -/
def sortBy {α : Type} (le : α → α → Bool) : List α → List α
  | [] => []
  | x :: xs => insertSorted le x (sortBy le xs)

/-- The local `struct Candidate` of `solvePuzzleRecursively`. -/
structure Candidate where
  r : Int
  c : Int
  dr : Int
  dc : Int
  overlap : Nat
deriving DecidableEq, Repr

/-- Candidate enumeration of `solvePuzzleRecursively`: all cells in
row-major order, all 8 directions, keeping those `canPlaceWord` accepts
together with their overlap count. -/
def genCandidates (R C : Nat) (g : Grid) (w : Word) : List Candidate :=
  (List.range R).flatMap fun r =>
    (List.range C).flatMap fun c =>
      DIRECTIONS.filterMap fun d =>
        let res := canPlaceWord R C g w (r : Int) (c : Int) d.1 d.2
        if res.1 then some ⟨(r : Int), (c : Int), d.1, d.2, res.2⟩ else none

/-- Manhattan distance from the grid center, as in the sort comparator:
`abs(r - GRID_ROWS/2) + abs(c - GRID_COLS/2)`. -/
def distCenter (R C : Nat) (cd : Candidate) : Nat :=
  (cd.r - (R / 2 : Nat)).natAbs + (cd.c - (C / 2 : Nat)).natAbs

/-- Non-strict version of the candidate comparator: `a` may precede `b`. -/
def candLE (R C : Nat) (a b : Candidate) : Bool :=
  decide (b.overlap < a.overlap ∨
    (a.overlap = b.overlap ∧ distCenter R C a ≤ distCenter R C b))

/-- The `sort(candidates.begin(), candidates.end(), ...)` call. -/
def sortCandidates (R C : Nat) (cs : List Candidate) : List Candidate :=
  sortBy (candLE R C) cs

/-- Search state: the shared `best_result` record plus the number of
`hasTimedOut` calls made so far (the clock-poll counter). -/
structure SolveState where
  best : PuzzleResult
  t : Nat

/-- The best-solution update of `solvePuzzleRecursively` (lines 141-147):
replace the record when `(placed_count, current_overlap)` beats
`(num_placed, total_overlap_score)` in the source's condition. -/
def updateBest (grid : Grid) (cur : List WordPlacement) (ov : Nat)
    (b : PuzzleResult) : PuzzleResult :=
  if cur.length > b.num_placed ∨
      (cur.length = b.num_placed ∧ ov > b.total_overlap_score) then
    { b with
      num_placed := cur.length
      total_overlap_score := ov
      grid := grid
      placements := cur }
  else b

/-- The candidate loop of `solvePuzzleRecursively` (lines 179-190),
abstracted over the recursive call `recurse` made at the next word
index.  The `Bool` result records whether the loop aborted on a
timeout, in which case the source `return`s from the whole call,
skipping the final skip-this-word branch. -/
def candLoop (clock : Nat → Int) (limit : Int)
    (recurse : Grid → List WordPlacement → SolveState → SolveState)
    (word : Word) : List Candidate → Grid → List WordPlacement →
    SolveState → SolveState × Bool
  | [], _, _, st => (st, false)
  | cd :: rest, grid, cur, st =>
    if hasTimedOut (clock st.t) limit then ({ st with t := st.t + 1 }, true)
    else
      let st1 : SolveState := { st with t := st.t + 1 }
      let newGrid := placeWord grid word cd.r cd.c cd.dr cd.dc
      let st2 := recurse newGrid (cur ++ [⟨word, cd.r, cd.c, cd.dr, cd.dc⟩]) st1
      candLoop clock limit recurse word rest grid cur st2

/-- `solvePuzzleRecursively`.  The source walks `word_order` by an index
`current_index`; since the index only appears as `word_order[i]`,
`word_order.size() - i` and the end test `i >= word_order.size()`, the
still-to-attempt suffix `rem` of `word_order` carries the same
information and the recursion is structural on it.  The `used_flags`
vector of the source is set and reset around each recursive call but
never read, so it has no observable effect and is not threaded here. -/
def solveRec (clock : Nat → Int) (limit : Int) (R C : Nat)
    (words : List Word) : List Nat → Grid → List WordPlacement →
    SolveState → SolveState
  | rem, grid, cur, st =>
    if hasTimedOut (clock st.t) limit then { st with t := st.t + 1 }
    else
      let st1 : SolveState := { st with t := st.t + 1 }
      let placed := cur.length
      let ov := calculateOverlapScore R C cur
      let st2 : SolveState := { st1 with best := updateBest grid cur ov st1.best }
      match rem with
      | [] => st2
      | widx :: rest =>
        if placed + (widx :: rest).length ≤ st2.best.num_placed then st2
        else
          let word := words.getD widx []
          let cands := sortCandidates R C (genCandidates R C grid word)
          let res := candLoop clock limit
            (fun g cu s => solveRec clock limit R C words rest g cu s)
            word cands grid cur st2
          if res.2 then res.1
          else if hasTimedOut (clock res.1.t) limit then
            { res.1 with t := res.1.t + 1 }
          else
            solveRec clock limit R C words rest grid cur
              { res.1 with t := res.1.t + 1 }

/-- One pass of the word-ordering loop in `generateWordSearch`
(lines 211-218): indices whose `required_flags` entry matches the pass,
tagged with the word length, sorted by `greater<pair<int,int>>`, then
projected back to indices. -/
def passList (words : List Word) (req : List Bool) (pass : Nat) : List Nat :=
  (sortBy
    (fun a b : Nat × Nat =>
      decide (b.1 < a.1 ∨ (b.1 = a.1 ∧ b.2 ≤ a.2)))
    ((List.range words.length).filterMap fun idx =>
      if decide (pass = 0) = req.getD idx false then
        some ((words.getD idx []).length, idx)
      else none)).map (fun p => p.2)

/-- The precomputed `word_order`: required pass then optional pass. -/
def wordOrder (words : List Word) (req : List Bool) : List Nat :=
  passList words req 0 ++ passList words req 1

/-- Does placement `p` cover cell `(r, c)`? -/
def coversCell (p : WordPlacement) (r c : Int) : Bool :=
  (List.range p.word.length).any fun k =>
    decide (r = p.row + (k : Int) * p.delta_row ∧
      c = p.col + (k : Int) * p.delta_col)

/-- Does any placement in the list cover cell `(r, c)`? -/
def coveredAny (ps : List WordPlacement) (r c : Int) : Bool :=
  ps.any fun p => coversCell p r c

/-- The random-fill loop at the end of `generateWordSearch`
(lines 235-238), threading the index `k` of the next random draw; the
source advances its generator once per `'.'` cell. -/
def fillLoop (rng : Nat → Nat) : List (Nat × Nat) → Nat → Grid → Grid
  | [], _, g => g
  | rc :: rest, k, g =>
    if getCell g (rc.1 : Int) (rc.2 : Int) = '.' then
      fillLoop rng rest (k + 1)
        (setCell g (rc.1 : Int) (rc.2 : Int)
          (Char.ofNat ('A'.toNat + rng k % 26)))
    else fillLoop rng rest k g

/-- Row-major list of the cell coordinates visited by the fill loop. -/
def cellsRowMajor (rows cols : Nat) : List (Nat × Nat) :=
  (List.range rows).flatMap fun r => (List.range cols).map fun c => (r, c)

/-- The whole random-fill step. -/
def fillGrid (rng : Nat → Nat) (rows cols : Nat) (g : Grid) : Grid :=
  fillLoop rng (cellsRowMajor rows cols) 0 g

/-- The default-constructed `PuzzleResult best_result;`: note the grid is
the empty vector, not a blank `rows × cols` grid. -/
def initResult : PuzzleResult :=
  { grid := []
    placements := []
    placed_words := []
    unplaced_words := []
    num_placed := 0
    total_overlap_score := 0 }

/-- The `vector<string> blank_grid(rows, string(cols, '.'))`. -/
def blankGrid (rows cols : Nat) : Grid :=
  List.replicate rows (List.replicate cols '.')

/-- The search phase of `generateWordSearch`: blank grid, word order,
recursive search; returns the final `best_result` before the placed-word
split and the random fill. -/
def searchBest (clock : Nat → Int) (words : List Word) (req : List Bool)
    (rows cols : Nat) (runtime_ms : Int) : PuzzleResult :=
  let wo := wordOrder words req
  (solveRec clock runtime_ms rows cols words wo (blankGrid rows cols) []
    { best := initResult, t := 0 }).best

/-- `generateWordSearch(words, required_flags, rows, cols, runtime_ms)`. -/
def generateWordSearch (clock : Nat → Int) (rng : Nat → Nat)
    (words : List Word) (req : List Bool) (rows cols : Nat)
    (runtime_ms : Int) : PuzzleResult :=
  let best := searchBest clock words req rows cols runtime_ms
  let placedSet := best.placements.map (fun p => p.word)
  let placed_words := words.filter (fun w => placedSet.contains w)
  let unplaced_words := words.filter (fun w => !(placedSet.contains w))
  { best with
    grid := fillGrid rng rows cols best.grid
    placed_words := placed_words
    unplaced_words := unplaced_words }

/-! ### Basic grid lemmas -/

/-- The grid value has `rows` rows, each of `cols` characters. -/
def gridShape (rows cols : Nat) (g : Grid) : Prop :=
  g.length = rows ∧ ∀ row ∈ g, row.length = cols

instance (rows cols : Nat) (g : Grid) : Decidable (gridShape rows cols g) := by
  unfold gridShape
  infer_instance

/-- `getCell` at nonnegative coordinates, in `Nat` form. -/
def getCellN (g : Grid) (r c : Nat) : Char :=
  (g[r]?.getD [])[c]?.getD '?'

theorem getD_eq_getCellN (g : Grid) (r c : Nat) :
    (g.getD r []).getD c '?' = getCellN g r c := by
  simp [getCellN, List.getD]

theorem getCell_ofNat (g : Grid) (r c : Nat) :
    getCell g (r : Int) (c : Int) = getCellN g r c := by
  simp [getCell, getCellN, List.getD]

theorem getCell_nonneg (g : Grid) (r c : Int) (hr : 0 ≤ r) (hc : 0 ≤ c) :
    getCell g r c = getCellN g r.toNat c.toNat := by
  simp [getCell, getCellN, hr, hc, List.getD]

theorem rowGet_set_self (row : List Char) (c : Nat) (ch : Char)
    (h : c < row.length) : (row.set c ch)[c]?.getD '?' = ch := by
  induction row generalizing c with
  | nil => simp at h
  | cons x xs ih =>
    cases c with
    | zero => simp
    | succ c' => simpa using ih c' (by simpa using h)

theorem rowGet_set_ne (row : List Char) (c c' : Nat) (ch : Char)
    (h : c ≠ c') : (row.set c ch)[c']?.getD '?' = row[c']?.getD '?' := by
  induction row generalizing c c' with
  | nil => simp
  | cons x xs ih =>
    cases c with
    | zero => cases c' with
      | zero => exact absurd rfl h
      | succ => simp
    | succ cc =>
      cases c' with
      | zero => simp
      | succ cc' => simpa using ih cc cc' (by omega)

theorem length_setCellNat (g : Grid) (r c : Nat) (ch : Char) :
    (setCellNat g r c ch).length = g.length := by
  induction g generalizing r with
  | nil => simp [setCellNat]
  | cons row rest ih =>
    cases r with
    | zero => simp [setCellNat]
    | succ r' => simpa [setCellNat] using ih r'

theorem rows_setCellNat (g : Grid) (r c : Nat) (ch : Char) (cols : Nat)
    (h : ∀ row ∈ g, row.length = cols) :
    ∀ row ∈ setCellNat g r c ch, row.length = cols := by
  induction g generalizing r with
  | nil => intro row hrow; simp [setCellNat] at hrow
  | cons x xs ih =>
    intro row hrow
    cases r with
    | zero =>
      simp only [setCellNat, List.mem_cons] at hrow
      rcases hrow with h1 | h1
      · rw [h1, List.length_set]; exact h x (List.mem_cons_self x xs)
      · exact h row (List.mem_cons_of_mem x h1)
    | succ r' =>
      simp only [setCellNat, List.mem_cons] at hrow
      rcases hrow with h1 | h1
      · rw [h1]; exact h x (List.mem_cons_self x xs)
      · exact ih r' (fun rr hrr => h rr (List.mem_cons_of_mem x hrr)) row h1

theorem gridShape_setCellNat (rows cols : Nat) (g : Grid) (r c : Nat)
    (ch : Char) (h : gridShape rows cols g) :
    gridShape rows cols (setCellNat g r c ch) := by
  obtain ⟨h1, h2⟩ := h
  exact ⟨by rw [length_setCellNat]; exact h1, rows_setCellNat g r c ch cols h2⟩

theorem gridShape_setCell (rows cols : Nat) (g : Grid) (r c : Int)
    (ch : Char) (h : gridShape rows cols g) :
    gridShape rows cols (setCell g r c ch) := by
  unfold setCell
  by_cases hg : 0 ≤ r ∧ 0 ≤ c
  · simp only [hg, if_pos]
    exact gridShape_setCellNat rows cols g r.toNat c.toNat ch h
  · simpa [hg] using h

theorem getCellN_setCellNat_self (g : Grid) (r c : Nat) (ch : Char)
    (hr : r < g.length) (hc : c < (g[r]?.getD []).length) :
    getCellN (setCellNat g r c ch) r c = ch := by
  induction g generalizing r with
  | nil => simp at hr
  | cons row rest ih =>
    cases r with
    | zero =>
      simp only [setCellNat, getCellN, List.getElem?_cons_zero, Option.getD_some]
      exact rowGet_set_self row c ch (by simpa using hc)
    | succ r' =>
      simp only [setCellNat, getCellN, List.getElem?_cons_succ,
        List.length_cons] at *
      exact ih r' (by omega) hc

theorem getCellN_setCellNat_ne (g : Grid) (r c r' c' : Nat) (ch : Char)
    (h : r ≠ r' ∨ c ≠ c') :
    getCellN (setCellNat g r c ch) r' c' = getCellN g r' c' := by
  induction g generalizing r r' with
  | nil => simp [setCellNat]
  | cons row rest ih =>
    cases r with
    | zero =>
      cases r' with
      | zero =>
        rcases h with h | h
        · exact absurd rfl h
        · simp only [setCellNat, getCellN, List.getElem?_cons_zero,
            Option.getD_some]
          exact rowGet_set_ne row c c' ch h
      | succ => simp [setCellNat, getCellN]
    | succ rr =>
      cases r' with
      | zero => simp [setCellNat, getCellN]
      | succ rr' =>
        simp only [setCellNat, getCellN, List.getElem?_cons_succ] at *
        refine ih rr rr' ?_
        rcases h with h | h
        · left; omega
        · right; exact h

theorem getCell_setCell_ne (g : Grid) (r c r' c' : Int) (ch : Char)
    (h : ¬(r' = r ∧ c' = c)) :
    getCell (setCell g r c ch) r' c' = getCell g r' c' := by
  unfold setCell
  by_cases hg : 0 ≤ r ∧ 0 ≤ c
  · simp only [hg, if_pos]
    by_cases hg' : 0 ≤ r' ∧ 0 ≤ c'
    · rw [getCell_nonneg _ _ _ hg'.1 hg'.2, getCell_nonneg _ _ _ hg'.1 hg'.2]
      apply getCellN_setCellNat_ne
      by_cases hr : r = r'
      · right; intro hcc; exact h ⟨by omega, by omega⟩
      · left; omega
    · simp [getCell, hg']
  · simp [hg]

theorem getCell_setCell_self (g : Grid) (r c : Int) (ch : Char)
    (hr : 0 ≤ r) (hc : 0 ≤ c) (hrl : r.toNat < g.length)
    (hcl : c.toNat < (g[r.toNat]?.getD []).length) :
    getCell (setCell g r c ch) r c = ch := by
  unfold setCell
  simp only [hr, hc, and_self, if_pos]
  rw [getCell_nonneg _ _ _ hr hc]
  exact getCellN_setCellNat_self g r.toNat c.toNat ch hrl hcl

theorem getCell_setCell_inBounds (rows cols : Nat) (g : Grid) (r c : Int)
    (ch : Char) (hs : gridShape rows cols g)
    (hb : isInBounds rows cols r c) :
    getCell (setCell g r c ch) r c = ch := by
  obtain ⟨h1, h2, h3, h4⟩ := hb
  have hrl : r.toNat < g.length := by rw [hs.1]; omega
  have hmem : g[r.toNat]?.getD [] ∈ g := by
    rw [List.getElem?_eq_getElem hrl]
    exact List.getElem_mem hrl
  have hcl : c.toNat < (g[r.toNat]?.getD []).length := by
    rw [hs.2 _ hmem]; omega
  exact getCell_setCell_self g r c ch h1 h3 hrl hcl

theorem getCell_blank (rows cols : Nat) (r c : Int)
    (h : isInBounds rows cols r c) :
    getCell (List.replicate rows (List.replicate cols '.')) r c = '.' := by
  obtain ⟨h1, h2, h3, h4⟩ := h
  rw [getCell_nonneg _ _ _ h1 h3]
  unfold getCellN
  rw [List.getElem?_replicate]
  have hrn : r.toNat < rows := by omega
  simp only [hrn, if_pos, Option.getD_some]
  rw [List.getElem?_replicate]
  have hcn : c.toNat < cols := by omega
  simp [hcn]

theorem gridShape_blank (rows cols : Nat) :
    gridShape rows cols (List.replicate rows (List.replicate cols '.')) := by
  constructor
  · simp
  · intro row hrow
    rw [List.eq_of_mem_replicate hrow]
    simp

/-! ### Feasibility check: characterization of `canPlaceWord` -/

/-- Cell `k` of a walk starting at `(r, c)` with step `(dr, dc)` is
acceptable for letter `w[k]`: in bounds and empty or already that
letter. -/
def okCell (R C : Nat) (g : Grid) (w : Word) (r c dr dc : Int)
    (k : Nat) : Prop :=
  isInBounds R C (r + (k : Int) * dr) (c + (k : Int) * dc) ∧
    (getCell g (r + (k : Int) * dr) (c + (k : Int) * dc) = '.' ∨
      getCell g (r + (k : Int) * dr) (c + (k : Int) * dc) = w.getD k '?')

/-- The number of walk cells whose pre-existing letter equals the word's
corresponding letter. -/
def overlapSpec (g : Grid) (w : Word) (r c dr dc : Int) : Nat :=
  (List.range w.length).countP fun (k : Nat) =>
    decide (getCell g (r + (k : Int) * dr) (c + (k : Int) * dc) = w.getD k '?')

theorem canPlaceAux_cons_oob (R C : Nat) (g : Grid) (ch : Char)
    (rest : Word) (r c dr dc : Int) (acc : Nat)
    (hb : ¬ isInBounds R C r c) :
    canPlaceAux R C g (ch :: rest) r c dr dc acc = (false, acc) := by
  unfold canPlaceAux
  rw [if_neg hb]

theorem canPlaceAux_cons_conflict (R C : Nat) (g : Grid) (ch : Char)
    (rest : Word) (r c dr dc : Int) (acc : Nat)
    (hb : isInBounds R C r c)
    (hconf : getCell g r c ≠ '.' ∧ getCell g r c ≠ ch) :
    canPlaceAux R C g (ch :: rest) r c dr dc acc = (false, acc) := by
  unfold canPlaceAux
  rw [if_pos hb]
  show (if getCell g r c ≠ '.' ∧ getCell g r c ≠ ch then ((false, acc) : Bool × Nat)
    else _) = _
  rw [if_pos hconf]

theorem canPlaceAux_cons_step (R C : Nat) (g : Grid) (ch : Char)
    (rest : Word) (r c dr dc : Int) (acc : Nat)
    (hb : isInBounds R C r c)
    (hconf : ¬(getCell g r c ≠ '.' ∧ getCell g r c ≠ ch)) :
    canPlaceAux R C g (ch :: rest) r c dr dc acc =
      canPlaceAux R C g rest (r + dr) (c + dc) dr dc
        (acc + if getCell g r c = ch then 1 else 0) := by
  conv_lhs => unfold canPlaceAux
  rw [if_pos hb]
  show (if getCell g r c ≠ '.' ∧ getCell g r c ≠ ch then ((false, acc) : Bool × Nat)
    else _) = _
  rw [if_neg hconf]

theorem countP_range_succ_shift (p : Nat → Bool) (n : Nat) :
    (List.range (n + 1)).countP p =
      (if p 0 then 1 else 0) + (List.range n).countP (fun k => p (k + 1)) := by
  rw [List.range_succ_eq_map, List.countP_cons, List.countP_map]
  have hc : p ∘ Nat.succ = fun k => p (k + 1) := rfl
  rw [hc]
  omega

theorem canPlaceAux_true_iff (R C : Nat) (g : Grid) (dr dc : Int) :
    ∀ (w : Word) (r c : Int) (acc : Nat),
      ((canPlaceAux R C g w r c dr dc acc).1 = true ↔
        ∀ k, k < w.length → okCell R C g w r c dr dc k) ∧
      ((canPlaceAux R C g w r c dr dc acc).1 = true →
        (canPlaceAux R C g w r c dr dc acc).2 =
          acc + overlapSpec g w r c dr dc) := by
  intro w
  induction w with
  | nil =>
    intro r c acc
    constructor
    · simp [canPlaceAux]
    · intro _
      simp [canPlaceAux, overlapSpec]
  | cons ch rest ih =>
    intro r c acc
    have hshift : ∀ k : Nat,
        (r + ((k + 1 : Nat) : Int) * dr = (r + dr) + (k : Int) * dr) ∧
        (c + ((k + 1 : Nat) : Int) * dc = (c + dc) + (k : Int) * dc) := by
      intro k
      constructor <;> (push_cast; ring)
    by_cases hb : isInBounds R C r c
    · by_cases hconf : getCell g r c ≠ '.' ∧ getCell g r c ≠ ch
      · rw [canPlaceAux_cons_conflict R C g ch rest r c dr dc acc hb hconf]
        constructor
        · constructor
          · intro h; exact absurd h (by simp)
          · intro h
            have h0 := h 0 (by simp)
            unfold okCell at h0
            simp only [Nat.cast_zero, zero_mul, add_zero] at h0
            rcases h0.2 with h1 | h1
            · exact absurd h1 hconf.1
            · exact absurd (by simpa using h1) hconf.2
        · intro h; exact absurd h (by simp)
      · have hstep := canPlaceAux_cons_step R C g ch rest r c dr dc acc hb hconf
        have ihr := ih (r + dr) (c + dc)
          (acc + if getCell g r c = ch then 1 else 0)
        constructor
        · rw [hstep, ihr.1]
          constructor
          · intro h k hk
            cases k with
            | zero =>
              unfold okCell
              simp only [Nat.cast_zero, zero_mul, add_zero]
              refine ⟨hb, ?_⟩
              by_cases hdot : getCell g r c = '.'
              · left; exact hdot
              · right
                rcases not_and_or.mp hconf with h1 | h1
                · exact absurd hdot (by simpa using h1)
                · simpa using not_not.mp h1
            | succ j =>
              have hj : j < rest.length := by
                simpa [Nat.succ_lt_succ_iff] using hk
              have := h j hj
              unfold okCell at this ⊢
              rw [(hshift j).1, (hshift j).2]
              simpa using this
          · intro h k hk
            have hk1 : k + 1 < (ch :: rest).length := by
              simpa using Nat.succ_lt_succ hk
            have := h (k + 1) hk1
            unfold okCell at this ⊢
            rw [(hshift k).1, (hshift k).2] at this
            simpa using this
        · intro htrue
          rw [hstep] at htrue ⊢
          rw [ihr.2 htrue]
          have hcount : overlapSpec g (ch :: rest) r c dr dc =
              (if getCell g r c = ch then 1 else 0) +
                overlapSpec g rest (r + dr) (c + dc) dr dc := by
            unfold overlapSpec
            rw [List.length_cons, countP_range_succ_shift]
            congr 1
            · simp
            · apply List.countP_congr
              intro k _
              rw [(hshift k).1, (hshift k).2]
              simp
          rw [hcount]
          omega
    · rw [canPlaceAux_cons_oob R C g ch rest r c dr dc acc hb]
      constructor
      · constructor
        · intro h; exact absurd h (by simp)
        · intro h
          have h0 := h 0 (by simp)
          unfold okCell at h0
          simp only [Nat.cast_zero, zero_mul, add_zero] at h0
          exact absurd h0.1 hb
      · intro h; exact absurd h (by simp)

theorem canPlaceWord_true_iff (R C : Nat) (g : Grid) (w : Word)
    (r c dr dc : Int) :
    (canPlaceWord R C g w r c dr dc).1 = true ↔
      ∀ k, k < w.length → okCell R C g w r c dr dc k :=
  (canPlaceAux_true_iff R C g dr dc w r c 0).1

theorem canPlaceWord_overlap (R C : Nat) (g : Grid) (w : Word)
    (r c dr dc : Int)
    (h : (canPlaceWord R C g w r c dr dc).1 = true) :
    (canPlaceWord R C g w r c dr dc).2 = overlapSpec g w r c dr dc := by
  have := (canPlaceAux_true_iff R C g dr dc w r c 0).2 h
  simpa [canPlaceWord] using this

/-! ### `placeWord`: writes and frame -/

theorem DIRECTIONS_ne_zero :
    ∀ d ∈ DIRECTIONS, ¬(d.1 = 0 ∧ d.2 = 0) := by decide

theorem placeWord_shape (rows cols : Nat) (w : Word) :
    ∀ (g : Grid) (r c dr dc : Int), gridShape rows cols g →
      gridShape rows cols (placeWord g w r c dr dc) := by
  induction w with
  | nil => intro g r c dr dc h; simpa [placeWord] using h
  | cons ch rest ih =>
    intro g r c dr dc h
    simp only [placeWord]
    exact ih _ _ _ _ _ (gridShape_setCell rows cols g r c ch h)

theorem placeWord_frame (w : Word) :
    ∀ (g : Grid) (r c dr dc r' c' : Int),
      (∀ k, k < w.length →
        ¬(r' = r + (k : Int) * dr ∧ c' = c + (k : Int) * dc)) →
      getCell (placeWord g w r c dr dc) r' c' = getCell g r' c' := by
  induction w with
  | nil => intro g r c dr dc r' c' _; simp [placeWord]
  | cons ch rest ih =>
    intro g r c dr dc r' c' h
    simp only [placeWord]
    rw [ih (setCell g r c ch) (r + dr) (c + dc) dr dc r' c' ?_]
    · apply getCell_setCell_ne
      have := h 0 (by simp)
      simpa using this
    · intro k hk
      have := h (k + 1) (by simpa using Nat.succ_lt_succ hk)
      intro hcontra
      apply this
      constructor
      · rw [hcontra.1]; push_cast; ring
      · rw [hcontra.2]; push_cast; ring

theorem placeWord_sets (rows cols : Nat) (w : Word) :
    ∀ (g : Grid) (r c dr dc : Int), ¬(dr = 0 ∧ dc = 0) →
      gridShape rows cols g →
      ∀ k, k < w.length →
        isInBounds rows cols (r + (k : Int) * dr) (c + (k : Int) * dc) →
        getCell (placeWord g w r c dr dc)
          (r + (k : Int) * dr) (c + (k : Int) * dc) = w.getD k '?' := by
  induction w with
  | nil => intro g r c dr dc _ _ k hk; simp at hk
  | cons ch rest ih =>
    intro g r c dr dc hd hs k hk hb
    cases k with
    | zero =>
      simp only [Nat.cast_zero, zero_mul, add_zero] at hb ⊢
      simp only [placeWord, List.getD_cons_zero]
      rw [placeWord_frame rest (setCell g r c ch) (r + dr) (c + dc) dr dc r c ?_]
      · exact getCell_setCell_inBounds rows cols g r c ch hs hb
      · intro j hj hcontra
        have h1 : ((j : Int) + 1) * dr = 0 := by
          have := hcontra.1
          ring_nf
          ring_nf at this
          omega
        have h2 : ((j : Int) + 1) * dc = 0 := by
          have := hcontra.2
          ring_nf
          ring_nf at this
          omega
        have hj1 : ((j : Int) + 1) ≠ 0 := by positivity
        rcases mul_eq_zero.mp h1 with h | h
        · exact absurd h hj1
        · rcases mul_eq_zero.mp h2 with h' | h'
          · exact absurd h' hj1
          · exact hd ⟨h, h'⟩
    | succ j =>
      have hshift :
          (r + ((j + 1 : Nat) : Int) * dr = (r + dr) + (j : Int) * dr) ∧
          (c + ((j + 1 : Nat) : Int) * dc = (c + dc) + (j : Int) * dc) := by
        constructor <;> (push_cast; ring)
      simp only [placeWord, List.getD_cons_succ]
      rw [hshift.1, hshift.2]
      rw [hshift.1, hshift.2] at hb
      exact ih (setCell g r c ch) (r + dr) (c + dc) dr dc hd
        (gridShape_setCell rows cols g r c ch hs) j
        (by simpa using hk) hb

/-! ### Claim C2 -/

/-- C2: `canPlaceWord` returns true iff every walk cell is in bounds and
empty or already the word's corresponding letter; on success the
reported overlap count is the number of walk cells whose pre-existing
letter equals the word's letter.  The embedding of `canPlaceWord` is a
pure function of `(grid, word, r, c, dr, dc)`, so the grid is not
modified by construction. -/
theorem claim_C2_canPlaceWord_spec (R C : Nat) (g : Grid) (w : Word)
    (r c dr dc : Int) :
    ((canPlaceWord R C g w r c dr dc).1 = true ↔
      ∀ k, k < w.length →
        isInBounds R C (r + (k : Int) * dr) (c + (k : Int) * dc) ∧
          (getCell g (r + (k : Int) * dr) (c + (k : Int) * dc) = '.' ∨
            getCell g (r + (k : Int) * dr) (c + (k : Int) * dc) =
              w.getD k '?')) ∧
    ((canPlaceWord R C g w r c dr dc).1 = true →
      (canPlaceWord R C g w r c dr dc).2 = overlapSpec g w r c dr dc) := by
  constructor
  · exact canPlaceWord_true_iff R C g w r c dr dc
  · exact canPlaceWord_overlap R C g w r c dr dc

/-- Witness for C2 at a concrete grid: placing "BA" over ".A" succeeds
with overlap count 1. -/
theorem claim_C2_witness :
    (canPlaceWord 2 2 [['.', 'A'], ['.', '.']] ['B', 'A'] 0 0 0 1).1 = true ∧
    (canPlaceWord 2 2 [['.', 'A'], ['.', '.']] ['B', 'A'] 0 0 0 1).2 =
      overlapSpec [['.', 'A'], ['.', '.']] ['B', 'A'] 0 0 0 1 :=
  ⟨by decide,
    (claim_C2_canPlaceWord_spec 2 2 [['.', 'A'], ['.', '.']] ['B', 'A']
      0 0 0 1).2 (by decide)⟩

/-! ### Claim C10 -/

/-- C10: when `canPlaceWord` accepts a placement along one of the 8
directions, `placeWord` sets exactly the walk cells to the word's
letters and leaves every other cell unchanged. -/
theorem claim_C10_placeWord_exact (rows cols : Nat) (g : Grid) (w : Word)
    (r c dr dc : Int) (hd : (dr, dc) ∈ DIRECTIONS)
    (hs : gridShape rows cols g)
    (hok : (canPlaceWord rows cols g w r c dr dc).1 = true) :
    (∀ k, k < w.length →
      getCell (placeWord g w r c dr dc)
        (r + (k : Int) * dr) (c + (k : Int) * dc) = w.getD k '?') ∧
    (∀ r' c' : Int,
      (∀ k, k < w.length →
        ¬(r' = r + (k : Int) * dr ∧ c' = c + (k : Int) * dc)) →
      getCell (placeWord g w r c dr dc) r' c' = getCell g r' c') := by
  have hne : ¬(dr = 0 ∧ dc = 0) := by
    have := DIRECTIONS_ne_zero (dr, dc) hd
    simpa using this
  constructor
  · intro k hk
    have hcells := (canPlaceWord_true_iff rows cols g w r c dr dc).mp hok k hk
    exact placeWord_sets rows cols w g r c dr dc hne hs k hk hcells.1
  · intro r' c' h
    exact placeWord_frame w g r c dr dc r' c' h

/-- Witness for C10: concrete placement of "BA" over ".A" in a 2×2
grid. -/
theorem claim_C10_witness :
    ((0 : Int), (1 : Int)) ∈ DIRECTIONS ∧
    gridShape 2 2 [['.', 'A'], ['.', '.']] ∧
    (canPlaceWord 2 2 [['.', 'A'], ['.', '.']] ['B', 'A'] 0 0 0 1).1 = true ∧
    ((∀ k, k < (['B', 'A'] : Word).length →
      getCell (placeWord [['.', 'A'], ['.', '.']] ['B', 'A'] 0 0 0 1)
        (0 + (k : Int) * 0) (0 + (k : Int) * 1) =
          (['B', 'A'] : Word).getD k '?') ∧
    (∀ r' c' : Int,
      (∀ k, k < (['B', 'A'] : Word).length →
        ¬(r' = 0 + (k : Int) * 0 ∧ c' = 0 + (k : Int) * 1)) →
      getCell (placeWord [['.', 'A'], ['.', '.']] ['B', 'A'] 0 0 0 1) r' c' =
        getCell [['.', 'A'], ['.', '.']] r' c')) :=
  ⟨by decide, by decide, by decide,
    claim_C10_placeWord_exact 2 2 [['.', 'A'], ['.', '.']] ['B', 'A'] 0 0 0 1
      (by decide) (by decide) (by decide)⟩

/-! ### Overlap scorer: `calculateOverlapScore` equals the spec recount -/

/-- Number of (placement, walk-step) incidences of `ps` at cell `(r, c)`:
the per-cell usage counter the spec describes ("increments the counter
at each cell of each placement"). -/
def usageCount (ps : List WordPlacement) (r c : Int) : Nat :=
  (ps.map fun p =>
    (List.range p.word.length).countP fun (k : Nat) =>
      decide (r = p.row + (k : Int) * p.delta_row ∧
        c = p.col + (k : Int) * p.delta_col)).sum

/-- Modelled from the spec's words (§4.3 Overlap Scorer / §8 recount):
sum over all grid cells of `max(0, usageCount − 1)` (in `Nat`,
`usageCount - 1` is exactly that).  Used only to compare against the
source-derived `calculateOverlapScore`. -/
def specOverlapScore (R C : Nat) (ps : List WordPlacement) : Nat :=
  sumN R fun r => sumN C fun c =>
    usageCount ps ((r : Nat) : Int) ((c : Nat) : Int) - 1

/-- Guarded usage: what the source's counter map actually accumulates
(walk steps whose cell is in bounds). -/
def usageGuarded (R C : Nat) (ps : List WordPlacement) (r c : Int) : Nat :=
  (ps.map fun p =>
    (List.range p.word.length).countP fun (k : Nat) =>
      decide ((r = p.row + (k : Int) * p.delta_row ∧
        c = p.col + (k : Int) * p.delta_col) ∧ isInBounds R C r c)).sum

theorem bumpWalk_apply (R C : Nat) (w : Word) :
    ∀ (m : Int → Int → Nat) (r0 c0 dr dc r c : Int),
      bumpWalk R C m w r0 c0 dr dc r c =
        m r c + (List.range w.length).countP fun (k : Nat) =>
          decide ((r = r0 + (k : Int) * dr ∧ c = c0 + (k : Int) * dc) ∧
            isInBounds R C r c) := by
  induction w with
  | nil => intro m r0 c0 dr dc r c; simp [bumpWalk]
  | cons ch rest ih =>
    intro m r0 c0 dr dc r c
    have hshift : ∀ k : Nat,
        (r0 + ((k + 1 : Nat) : Int) * dr = (r0 + dr) + (k : Int) * dr) ∧
        (c0 + ((k + 1 : Nat) : Int) * dc = (c0 + dc) + (k : Int) * dc) := by
      intro k
      constructor <;> (push_cast; ring)
    simp only [bumpWalk]
    rw [ih]
    rw [List.length_cons, countP_range_succ_shift]
    have htail :
        (List.range rest.length).countP (fun (k : Nat) =>
          decide ((r = r0 + ((k + 1 : Nat) : Int) * dr ∧
            c = c0 + ((k + 1 : Nat) : Int) * dc) ∧ isInBounds R C r c)) =
        (List.range rest.length).countP (fun (k : Nat) =>
          decide ((r = (r0 + dr) + (k : Int) * dr ∧
            c = (c0 + dc) + (k : Int) * dc) ∧ isInBounds R C r c)) := by
      apply List.countP_congr
      intro k _
      rw [(hshift k).1, (hshift k).2]
    have hhead :
        (if ((r = r0 + ((0 : Nat) : Int) * dr ∧
            c = c0 + ((0 : Nat) : Int) * dc) ∧
            isInBounds R C r c : Prop) then 1 else 0) =
        (if (r = r0 ∧ c = c0) ∧ isInBounds R C r c then 1 else 0) := by
      norm_num
    have hfirst : (if isInBounds R C r0 c0 then bump m r0 c0 else m) r c =
        m r c + (if (r = r0 ∧ c = c0) ∧ isInBounds R C r c then 1 else 0) := by
      by_cases hio : isInBounds R C r0 c0
      · simp only [hio, if_pos]
        unfold bump
        by_cases heq : r = r0 ∧ c = c0
        · have hio' : isInBounds R C r c := by
            rw [heq.1, heq.2]; exact hio
          simp [heq, hio', hio]
        · simp [heq]
      · simp only [hio, if_neg, not_false_iff]
        by_cases heq : r = r0 ∧ c = c0
        · have hio' : ¬ isInBounds R C r c := by
            rw [heq.1, heq.2]; exact hio
          simp [heq, hio', hio]
        · simp [heq]
    rw [hfirst, htail]
    simp only [decide_eq_true_eq]
    omega

theorem overlapFold_apply (R C : Nat) :
    ∀ (ps : List WordPlacement) (m : Int → Int → Nat) (r c : Int),
      (ps.foldl (fun m p =>
        bumpWalk R C m p.word p.row p.col p.delta_row p.delta_col) m) r c =
      m r c + usageGuarded R C ps r c := by
  intro ps
  induction ps with
  | nil => intro m r c; simp [usageGuarded]
  | cons p rest ih =>
    intro m r c
    simp only [List.foldl_cons]
    rw [ih]
    rw [bumpWalk_apply]
    unfold usageGuarded
    simp only [List.map_cons, List.sum_cons]
    omega

theorem sumN_congr (n : Nat) (f g : Nat → Nat)
    (h : ∀ k, k < n → f k = g k) : sumN n f = sumN n g := by
  induction n with
  | zero => simp [sumN]
  | succ n' ih =>
    simp only [sumN]
    rw [ih (fun k hk => h k (Nat.lt_succ_of_lt hk)), h n' (Nat.lt_succ_self n')]

theorem sumN_zero_fun (n : Nat) (f : Nat → Nat)
    (h : ∀ k, k < n → f k = 0) : sumN n f = 0 := by
  induction n with
  | zero => simp [sumN]
  | succ n' ih =>
    simp only [sumN]
    rw [ih (fun k hk => h k (Nat.lt_succ_of_lt hk)), h n' (Nat.lt_succ_self n')]

theorem usageGuarded_eq_usageCount (R C : Nat) (ps : List WordPlacement)
    (r c : Int) (hb : isInBounds R C r c) :
    usageGuarded R C ps r c = usageCount ps r c := by
  unfold usageGuarded usageCount
  congr 1
  apply List.map_congr_left
  intro p _
  apply List.countP_congr
  intro k _
  simp [hb]

theorem calculateOverlapScore_eq_spec (R C : Nat) (ps : List WordPlacement) :
    calculateOverlapScore R C ps = specOverlapScore R C ps := by
  by_cases hps : ps = []
  · subst hps
    unfold calculateOverlapScore specOverlapScore
    simp only [if_pos]
    symm
    apply sumN_zero_fun
    intro r _
    apply sumN_zero_fun
    intro c _
    simp [usageCount]
  · unfold calculateOverlapScore specOverlapScore
    rw [if_neg hps]
    apply sumN_congr
    intro r hr
    apply sumN_congr
    intro c hc
    have hbb : isInBounds R C ((r : Nat) : Int) ((c : Nat) : Int) := by
      unfold isInBounds
      constructor
      · positivity
      refine ⟨?_, ?_, ?_⟩
      · exact_mod_cast hr
      · positivity
      · exact_mod_cast hc
    rw [overlapFold_apply, usageGuarded_eq_usageCount R C ps _ _ hbb]
    split <;> omega

/-! ### Insertion sort lemmas -/

theorem mem_insertSorted {α : Type} (le : α → α → Bool) (x a : α) :
    ∀ l : List α, a ∈ insertSorted le x l ↔ a = x ∨ a ∈ l := by
  intro l
  induction l with
  | nil => simp [insertSorted]
  | cons y ys ih =>
    simp only [insertSorted]
    by_cases h : le x y
    · simp [h]
    · simp only [h, if_neg, Bool.not_eq_true, List.mem_cons, ih]
      tauto

theorem mem_sortBy {α : Type} (le : α → α → Bool) (a : α) :
    ∀ l : List α, a ∈ sortBy le l ↔ a ∈ l := by
  intro l
  induction l with
  | nil => simp [sortBy]
  | cons y ys ih =>
    simp only [sortBy, mem_insertSorted, ih, List.mem_cons]

theorem pairwise_insertSorted {α : Type} (le : α → α → Bool)
    (htot : ∀ a b, le a b = false → le b a = true)
    (htrans : ∀ a b c, le a b = true → le b c = true → le a c = true)
    (x : α) : ∀ l : List α,
      List.Pairwise (fun a b => le a b = true) l →
      List.Pairwise (fun a b => le a b = true) (insertSorted le x l) := by
  intro l
  induction l with
  | nil => intro _; simp [insertSorted]
  | cons y ys ih =>
    intro hp
    rcases List.pairwise_cons.mp hp with ⟨hy, hys⟩
    simp only [insertSorted]
    by_cases h : le x y
    · rw [if_pos h]
      refine List.pairwise_cons.mpr ⟨?_, hp⟩
      intro b hb
      rcases List.mem_cons.mp hb with hb | hb
      · rw [hb]; exact h
      · exact htrans x y b h (hy b hb)
    · rw [if_neg (by simpa using h)]
      refine List.pairwise_cons.mpr ⟨?_, ih hys⟩
      intro b hb
      rcases (mem_insertSorted le x b ys).mp hb with hb | hb
      · rw [hb]
        exact htot x y (by simpa using h)
      · exact hy b hb

theorem pairwise_sortBy {α : Type} (le : α → α → Bool)
    (htot : ∀ a b, le a b = false → le b a = true)
    (htrans : ∀ a b c, le a b = true → le b c = true → le a c = true) :
    ∀ l : List α,
      List.Pairwise (fun a b => le a b = true) (sortBy le l) := by
  intro l
  induction l with
  | nil => simp [sortBy]
  | cons y ys ih =>
    simp only [sortBy]
    exact pairwise_insertSorted le htot htrans y (sortBy le ys) ih

/-! ### Word ordering: claim C8 -/

/-- The `greater<pair<int,int>>` comparator used on the `(length, index)`
pairs, as a non-strict "may precede" test. -/
def pairGE (a b : Nat × Nat) : Bool :=
  decide (b.1 < a.1 ∨ (b.1 = a.1 ∧ b.2 ≤ a.2))

/-- The `tmp` vector of one pass of the word-ordering loop. -/
def tmpList (words : List Word) (req : List Bool) (pass : Nat) :
    List (Nat × Nat) :=
  (List.range words.length).filterMap fun idx =>
    if decide (pass = 0) = req.getD idx false then
      some ((words.getD idx []).length, idx)
    else none

theorem pairGE_true_iff (a b : Nat × Nat) :
    pairGE a b = true ↔ (b.1 < a.1 ∨ (b.1 = a.1 ∧ b.2 ≤ a.2)) := by
  unfold pairGE
  simp

theorem pairGE_total : ∀ a b, pairGE a b = false → pairGE b a = true := by
  intro a b h
  unfold pairGE at *
  simp only [decide_eq_false_iff_not, not_or, not_and, not_lt] at h
  simp only [decide_eq_true_eq]
  omega

theorem pairGE_trans :
    ∀ a b c, pairGE a b = true → pairGE b c = true → pairGE a c = true := by
  intro a b c hab hbc
  unfold pairGE at *
  simp only [decide_eq_true_eq] at *
  omega

theorem mem_tmpList (words : List Word) (req : List Bool) (pass : Nat)
    (x : Nat × Nat) :
    x ∈ tmpList words req pass ↔
      x.2 < words.length ∧ req.getD x.2 false = decide (pass = 0) ∧
        x.1 = (words.getD x.2 []).length := by
  unfold tmpList
  rw [List.mem_filterMap]
  constructor
  · rintro ⟨i, hi, hf⟩
    rw [List.mem_range] at hi
    by_cases hc : decide (pass = 0) = req.getD i false
    · rw [if_pos hc] at hf
      have hx := Option.some_injective _ hf
      refine ⟨?_, ?_, ?_⟩
      · rw [← hx]; exact hi
      · rw [← hx]; exact hc.symm
      · rw [← hx]
    · rw [if_neg hc] at hf
      exact absurd hf (by simp)
  · rintro ⟨h1, h2, h3⟩
    refine ⟨x.2, List.mem_range.mpr h1, ?_⟩
    rw [if_pos h2.symm, ← h3]

theorem passList_def (words : List Word) (req : List Bool) (pass : Nat) :
    passList words req pass =
      (sortBy pairGE (tmpList words req pass)).map (fun p => p.2) := rfl

theorem mem_passList (words : List Word) (req : List Bool) (pass : Nat)
    (i : Nat) :
    i ∈ passList words req pass ↔
      i < words.length ∧ req.getD i false = decide (pass = 0) := by
  rw [passList_def, List.mem_map]
  constructor
  · rintro ⟨x, hx, hxi⟩
    rw [mem_sortBy, mem_tmpList] at hx
    rw [← hxi]
    exact ⟨hx.1, hx.2.1⟩
  · rintro ⟨h1, h2⟩
    refine ⟨((words.getD i []).length, i), ?_, rfl⟩
    rw [mem_sortBy, mem_tmpList]
    exact ⟨h1, h2, rfl⟩

theorem passList_len_sorted (words : List Word) (req : List Bool)
    (pass : Nat) (j j' : Nat) (hjj : j < j')
    (hj' : j' < (passList words req pass).length) :
    (words.getD ((passList words req pass).getD j' 0) []).length ≤
      (words.getD ((passList words req pass).getD j 0) []).length := by
  have hj : j < (passList words req pass).length := Nat.lt_trans hjj hj'
  have hlen : (passList words req pass).length =
      (sortBy pairGE (tmpList words req pass)).length := by
    rw [passList_def, List.length_map]
  have hjS : j < (sortBy pairGE (tmpList words req pass)).length := by omega
  have hj'S : j' < (sortBy pairGE (tmpList words req pass)).length := by omega
  have hsorted := pairwise_sortBy pairGE pairGE_total pairGE_trans
    (tmpList words req pass)
  have hrel : pairGE (sortBy pairGE (tmpList words req pass))[j]
      (sortBy pairGE (tmpList words req pass))[j'] = true :=
    List.pairwise_iff_getElem.mp hsorted j j' hjS hj'S hjj
  have hmem : ∀ (m : Nat)
      (hm : m < (sortBy pairGE (tmpList words req pass)).length),
      (sortBy pairGE (tmpList words req pass))[m].1 =
        (words.getD (sortBy pairGE (tmpList words req pass))[m].2 []).length := by
    intro m hm
    have hmm : (sortBy pairGE (tmpList words req pass))[m] ∈
        sortBy pairGE (tmpList words req pass) := List.getElem_mem hm
    rw [mem_sortBy, mem_tmpList] at hmm
    exact hmm.2.2
  have hgj : (passList words req pass).getD j 0 =
      (sortBy pairGE (tmpList words req pass))[j].2 := by
    rw [List.getD_eq_getElem _ _ hj]
    simp [passList_def]
  have hgj' : (passList words req pass).getD j' 0 =
      (sortBy pairGE (tmpList words req pass))[j'].2 := by
    rw [List.getD_eq_getElem _ _ hj']
    simp [passList_def]
  rw [hgj, hgj']
  rw [← hmem j hjS, ← hmem j' hj'S]
  rw [pairGE_true_iff] at hrel
  omega

theorem mem_passList_req (words : List Word) (req : List Bool) (i : Nat) :
    (i ∈ passList words req 0 → req.getD i false = true) ∧
    (i ∈ passList words req 1 → req.getD i false = false) := by
  constructor
  · intro h
    have := (mem_passList words req 0 i).mp h
    simpa using this.2
  · intro h
    have := (mem_passList words req 1 i).mp h
    simpa using this.2

/-- C8: the precomputed word attempt order contains exactly the indices
of the input words; every required word precedes every optional word;
and within each of the two partitions, words appear in order of length
descending.  (Positions are compared through `getD`; `req.getD i false`
is the required flag of word `i`.) -/
theorem claim_C8_wordOrder (words : List Word) (req : List Bool) :
    (∀ i, i ∈ wordOrder words req ↔ i < words.length) ∧
    (∀ p q, p < q → q < (wordOrder words req).length →
      (req.getD ((wordOrder words req).getD p 0) false = false →
        req.getD ((wordOrder words req).getD q 0) false = false) ∧
      (req.getD ((wordOrder words req).getD p 0) false =
          req.getD ((wordOrder words req).getD q 0) false →
        (words.getD ((wordOrder words req).getD q 0) []).length ≤
          (words.getD ((wordOrder words req).getD p 0) []).length)) := by
  constructor
  · intro i
    unfold wordOrder
    rw [List.mem_append, mem_passList, mem_passList]
    constructor
    · rintro (h | h) <;> exact h.1
    · intro h
      by_cases hreq : req.getD i false
      · left; exact ⟨h, by rw [hreq]; rfl⟩
      · right
        simp only [Bool.not_eq_true] at hreq
        exact ⟨h, by rw [hreq]; rfl⟩
  · intro p q hpq hq
    have hp : p < (wordOrder words req).length := Nat.lt_trans hpq hq
    have hlen : (wordOrder words req).length =
        (passList words req 0).length + (passList words req 1).length := by
      unfold wordOrder
      rw [List.length_append]
    have hmemA : ∀ (m : Nat), m < (passList words req 0).length →
        req.getD ((passList words req 0).getD m 0) false = true := by
      intro m hm
      apply (mem_passList_req words req _).1
      rw [List.getD_eq_getElem _ _ hm]
      exact List.getElem_mem hm
    have hmemB : ∀ (m : Nat), m < (passList words req 1).length →
        req.getD ((passList words req 1).getD m 0) false = false := by
      intro m hm
      apply (mem_passList_req words req _).2
      rw [List.getD_eq_getElem _ _ hm]
      exact List.getElem_mem hm
    have hgetA : ∀ (m : Nat), m < (passList words req 0).length →
        (wordOrder words req).getD m 0 = (passList words req 0).getD m 0 := by
      intro m hm
      unfold wordOrder
      exact List.getD_append _ _ _ _ hm
    have hgetB : ∀ (m : Nat), (passList words req 0).length ≤ m →
        (wordOrder words req).getD m 0 =
          (passList words req 1).getD (m - (passList words req 0).length) 0 := by
      intro m hm
      unfold wordOrder
      exact List.getD_append_right _ _ _ _ hm
    by_cases hqA : q < (passList words req 0).length
    · have hpA : p < (passList words req 0).length := Nat.lt_trans hpq hqA
      rw [hgetA p hpA, hgetA q hqA]
      constructor
      · intro hfalse
        rw [hmemA p hpA] at hfalse
        exact absurd hfalse (by simp)
      · intro _
        exact passList_len_sorted words req 0 p q hpq hqA
    · by_cases hpA : p < (passList words req 0).length
      · rw [hgetA p hpA, hgetB q (by omega)]
        constructor
        · intro hfalse
          rw [hmemA p hpA] at hfalse
          exact absurd hfalse (by simp)
        · intro heq
          rw [hmemA p hpA,
            hmemB (q - (passList words req 0).length) (by omega)] at heq
          exact absurd heq (by simp)
      · rw [hgetB p (by omega), hgetB q (by omega)]
        constructor
        · intro _
          exact hmemB (q - (passList words req 0).length) (by omega)
        · intro _
          exact passList_len_sorted words req 1
            (p - (passList words req 0).length)
            (q - (passList words req 0).length) (by omega) (by omega)

/-- Witness for C8 on words ["AB" (optional), "A" (required),
"ABC" (optional)]: the computed order is [1, 2, 0]. -/
theorem claim_C8_witness :
    (0 : Nat) < 1 ∧
    1 < (wordOrder [['A', 'B'], ['A'], ['A', 'B', 'C']]
      [false, true, false]).length ∧
    ((wordOrder [['A', 'B'], ['A'], ['A', 'B', 'C']]
      [false, true, false]) = [1, 2, 0]) ∧
    (([false, true, false].getD ((wordOrder [['A', 'B'], ['A'],
        ['A', 'B', 'C']] [false, true, false]).getD 0 0) false = false →
      [false, true, false].getD ((wordOrder [['A', 'B'], ['A'],
        ['A', 'B', 'C']] [false, true, false]).getD 1 0) false = false) ∧
     ([false, true, false].getD ((wordOrder [['A', 'B'], ['A'],
        ['A', 'B', 'C']] [false, true, false]).getD 0 0) false =
      [false, true, false].getD ((wordOrder [['A', 'B'], ['A'],
        ['A', 'B', 'C']] [false, true, false]).getD 1 0) false →
      (([['A', 'B'], ['A'], ['A', 'B', 'C']] : List Word).getD
        ((wordOrder [['A', 'B'], ['A'], ['A', 'B', 'C']]
          [false, true, false]).getD 1 0) []).length ≤
      (([['A', 'B'], ['A'], ['A', 'B', 'C']] : List Word).getD
        ((wordOrder [['A', 'B'], ['A'], ['A', 'B', 'C']]
          [false, true, false]).getD 0 0) []).length)) := by
  refine ⟨by decide, by decide, by decide, ?_⟩
  exact (claim_C8_wordOrder [['A', 'B'], ['A'], ['A', 'B', 'C']]
    [false, true, false]).2 0 1 (by decide) (by decide)

/-! ### Best-solution ordering and the update rule -/

/-- Lexicographic strict order on `(placedCount, overlapScore)` pairs. -/
def lexLT (x y : Nat × Nat) : Prop :=
  x.1 < y.1 ∨ (x.1 = y.1 ∧ x.2 < y.2)

/-- Lexicographic non-strict order on `(placedCount, overlapScore)`. -/
def lexLE (x y : Nat × Nat) : Prop :=
  x.1 < y.1 ∨ (x.1 = y.1 ∧ x.2 ≤ y.2)

/-- The comparison key of a solution record. -/
def bestPair (b : PuzzleResult) : Nat × Nat :=
  (b.num_placed, b.total_overlap_score)

theorem lexLE_refl (x : Nat × Nat) : lexLE x x := by
  unfold lexLE
  right
  exact ⟨rfl, Nat.le_refl _⟩

theorem lexLE_trans (x y z : Nat × Nat) (h1 : lexLE x y) (h2 : lexLE y z) :
    lexLE x z := by
  unfold lexLE at *
  omega

theorem lexLT_imp_lexLE (x y : Nat × Nat) (h : lexLT x y) : lexLE x y := by
  unfold lexLT at h
  unfold lexLE
  omega

theorem updateBest_cond_iff (cur : List WordPlacement)
    (ov : Nat) (b : PuzzleResult) :
    (cur.length > b.num_placed ∨
      (cur.length = b.num_placed ∧ ov > b.total_overlap_score)) ↔
    lexLT (bestPair b) (cur.length, ov) := by
  unfold lexLT bestPair
  omega

theorem updateBest_not_lt (grid : Grid) (cur : List WordPlacement)
    (ov : Nat) (b : PuzzleResult)
    (h : ¬ lexLT (bestPair b) (cur.length, ov)) :
    updateBest grid cur ov b = b := by
  unfold updateBest
  rw [if_neg (fun hc => h ((updateBest_cond_iff cur ov b).mp hc))]

theorem updateBest_lt (grid : Grid) (cur : List WordPlacement)
    (ov : Nat) (b : PuzzleResult)
    (h : lexLT (bestPair b) (cur.length, ov)) :
    updateBest grid cur ov b =
      { b with
        num_placed := cur.length
        total_overlap_score := ov
        grid := grid
        placements := cur } := by
  unfold updateBest
  rw [if_pos ((updateBest_cond_iff cur ov b).mpr h)]

theorem updateBest_mono (grid : Grid) (cur : List WordPlacement)
    (ov : Nat) (b : PuzzleResult) :
    lexLE (bestPair b) (bestPair (updateBest grid cur ov b)) := by
  by_cases h : lexLT (bestPair b) (cur.length, ov)
  · rw [updateBest_lt grid cur ov b h]
    exact lexLT_imp_lexLE _ _ h
  · rw [updateBest_not_lt grid cur ov b h]
    exact lexLE_refl _

/-! ### Monotonicity of the best pair through the search -/

theorem candLoop_mono (clock : Nat → Int) (limit : Int)
    (recurse : Grid → List WordPlacement → SolveState → SolveState)
    (word : Word)
    (hrec : ∀ g cu s, lexLE (bestPair s.best) (bestPair (recurse g cu s).best)) :
    ∀ (cands : List Candidate) (grid : Grid) (cur : List WordPlacement)
      (st : SolveState),
      lexLE (bestPair st.best)
        (bestPair (candLoop clock limit recurse word cands grid cur st).1.best) := by
  intro cands
  induction cands with
  | nil => intro grid cur st; exact lexLE_refl _
  | cons cd rest ih =>
    intro grid cur st
    simp only [candLoop]
    by_cases ht : hasTimedOut (clock st.t) limit
    · simp only [ht, if_pos]
      exact lexLE_refl _
    · simp only [ht, if_neg, Bool.not_eq_true]
      exact lexLE_trans _ _ _
        (hrec (placeWord grid word cd.r cd.c cd.dr cd.dc)
          (cur ++ [⟨word, cd.r, cd.c, cd.dr, cd.dc⟩])
          { best := st.best, t := st.t + 1 })
        (ih grid cur _)

theorem solveRec_mono (clock : Nat → Int) (limit : Int) (R C : Nat)
    (words : List Word) :
    ∀ (rem : List Nat) (grid : Grid) (cur : List WordPlacement)
      (st : SolveState),
      lexLE (bestPair st.best)
        (bestPair (solveRec clock limit R C words rem grid cur st).best) := by
  intro rem
  induction rem with
  | nil =>
    intro grid cur st
    rw [solveRec]
    by_cases ht : hasTimedOut (clock st.t) limit
    · simp only [ht, if_pos]
      exact lexLE_refl _
    · simp only [ht, if_neg, Bool.not_eq_true]
      exact updateBest_mono _ _ _ _
  | cons widx rest ih =>
    intro grid cur st
    rw [solveRec]
    by_cases ht : hasTimedOut (clock st.t) limit
    · simp only [ht, if_pos]
      exact lexLE_refl _
    · simp only [ht, if_neg, Bool.not_eq_true]
      have hupd : lexLE (bestPair st.best)
          (bestPair (updateBest grid cur (calculateOverlapScore R C cur)
            st.best)) := updateBest_mono _ _ _ _
      by_cases hprune : cur.length + (widx :: rest).length ≤
          (updateBest grid cur (calculateOverlapScore R C cur)
            st.best).num_placed
      · simp only [hprune, if_pos]
        exact hupd
      · simp only [hprune, if_neg, not_false_iff]
        set res := candLoop clock limit
          (fun g cu s => solveRec clock limit R C words rest g cu s)
          (words.getD widx [])
          (sortCandidates R C (genCandidates R C grid (words.getD widx [])))
          grid cur
          { best := updateBest grid cur (calculateOverlapScore R C cur) st.best,
            t := st.t + 1 } with hresdef
        have hloop : lexLE
            (bestPair (updateBest grid cur (calculateOverlapScore R C cur)
              st.best))
            (bestPair res.1.best) := by
          rw [hresdef]
          exact candLoop_mono clock limit
            (fun g cu s => solveRec clock limit R C words rest g cu s)
            (words.getD widx [])
            (fun g cu s => ih g cu s)
            (sortCandidates R C (genCandidates R C grid (words.getD widx [])))
            grid cur
            { best := updateBest grid cur (calculateOverlapScore R C cur)
                st.best,
              t := st.t + 1 }
        by_cases hres : res.2
        · simp only [hres, if_pos]
          exact lexLE_trans _ _ _ hupd hloop
        · simp only [hres, if_neg, Bool.not_eq_true]
          by_cases ht2 : hasTimedOut (clock res.1.t) limit
          · simp only [ht2, if_pos]
            exact lexLE_trans _ _ _ hupd hloop
          · simp only [ht2, if_neg, Bool.not_eq_true]
            exact lexLE_trans _ _ _ (lexLE_trans _ _ _ hupd hloop)
              (ih grid cur { best := res.1.best, t := res.1.t + 1 })

instance (x y : Nat × Nat) : Decidable (lexLT x y) := by
  unfold lexLT
  infer_instance

instance (x y : Nat × Nat) : Decidable (lexLE x y) := by
  unfold lexLE
  infer_instance

/-! ### Claim C4 -/

/-- C4: the shared best record is replaced exactly when the current
`(placedCount, overlapScore)` pair is strictly greater than the
recorded best's pair in lexicographic order, and consequently the
recorded best's pair is monotonically non-decreasing (lexicographically)
through every call of the recursive search. -/
theorem claim_C4_best_update_monotone :
    (∀ (grid : Grid) (cur : List WordPlacement) (ov : Nat)
      (b : PuzzleResult),
      (¬ lexLT (bestPair b) (cur.length, ov) →
        updateBest grid cur ov b = b) ∧
      (lexLT (bestPair b) (cur.length, ov) →
        updateBest grid cur ov b =
          { b with
            num_placed := cur.length
            total_overlap_score := ov
            grid := grid
            placements := cur })) ∧
    (∀ (clock : Nat → Int) (limit : Int) (R C : Nat) (words : List Word)
      (rem : List Nat) (grid : Grid) (cur : List WordPlacement)
      (st : SolveState),
      lexLE (bestPair st.best)
        (bestPair (solveRec clock limit R C words rem grid cur st).best)) :=
  ⟨fun grid cur ov b =>
    ⟨updateBest_not_lt grid cur ov b, updateBest_lt grid cur ov b⟩,
   fun clock limit R C words rem grid cur st =>
    solveRec_mono clock limit R C words rem grid cur st⟩

/-- Witness for C4: a concrete strictly-better pair replaces the initial
best record. -/
theorem claim_C4_witness :
    lexLT (bestPair initResult)
      (([⟨['B'], 0, 0, 0, 1⟩] : List WordPlacement).length, 0) ∧
    updateBest [['B']] [⟨['B'], 0, 0, 0, 1⟩] 0 initResult =
      { initResult with
        num_placed := 1
        total_overlap_score := 0
        grid := [['B']]
        placements := [⟨['B'], 0, 0, 0, 1⟩] } :=
  ⟨by decide,
    (claim_C4_best_update_monotone.1 [['B']] [⟨['B'], 0, 0, 0, 1⟩] 0
      initResult).2 (by decide)⟩

/-! ### Placement chains: replay, in-bounds, conflict-freedom -/

/-- Replay a list of placements onto a grid, in order. -/
def replayOn (g : Grid) (ps : List WordPlacement) : Grid :=
  ps.foldl
    (fun g p => placeWord g p.word p.row p.col p.delta_row p.delta_col) g

/-- Every placement of the list was feasible (`canPlaceWord`) on the
grid state made of the previous ones, uses one of the 8 directions, and
carries a word drawn from `words` (or the empty word, the `getD`
default). -/
def GoodChain (R C : Nat) (words : List Word) :
    Grid → List WordPlacement → Prop
  | _, [] => True
  | g, p :: rest =>
    (canPlaceWord R C g p.word p.row p.col p.delta_row p.delta_col).1 =
      true ∧
    (p.delta_row, p.delta_col) ∈ DIRECTIONS ∧
    (p.word ∈ words ∨ p.word = []) ∧
    GoodChain R C words
      (placeWord g p.word p.row p.col p.delta_row p.delta_col) rest

/-- All cells of the placement lie inside the `R × C` grid. -/
def placementInBounds (R C : Nat) (p : WordPlacement) : Prop :=
  ∀ k, k < p.word.length →
    isInBounds R C (p.row + (k : Int) * p.delta_row)
      (p.col + (k : Int) * p.delta_col)

/-- Two placements never assign different letters to a shared cell. -/
def ConflictFreePair (p q : WordPlacement) : Prop :=
  ∀ k k', k < p.word.length → k' < q.word.length →
    p.row + (k : Int) * p.delta_row = q.row + (k' : Int) * q.delta_row →
    p.col + (k : Int) * p.delta_col = q.col + (k' : Int) * q.delta_col →
    p.word.getD k '?' = q.word.getD k' '?'

/-- Pairwise conflict-freedom of a placement list. -/
def ConflictFree (ps : List WordPlacement) : Prop :=
  ∀ p ∈ ps, ∀ q ∈ ps, ConflictFreePair p q

/-- The grid already holds the placement's letters on its cells. -/
def Imprinted (g : Grid) (p : WordPlacement) : Prop :=
  ∀ k, k < p.word.length →
    getCell g (p.row + (k : Int) * p.delta_row)
      (p.col + (k : Int) * p.delta_col) = p.word.getD k '?'

theorem replayOn_nil (g : Grid) : replayOn g [] = g := rfl

theorem replayOn_cons (g : Grid) (p : WordPlacement)
    (ps : List WordPlacement) :
    replayOn g (p :: ps) =
      replayOn (placeWord g p.word p.row p.col p.delta_row p.delta_col) ps :=
  rfl

theorem replayOn_snoc (g : Grid) (ps : List WordPlacement)
    (p : WordPlacement) :
    replayOn g (ps ++ [p]) =
      placeWord (replayOn g ps) p.word p.row p.col p.delta_row p.delta_col := by
  unfold replayOn
  rw [List.foldl_append]
  rfl

theorem replayOn_shape (R C : Nat) :
    ∀ (ps : List WordPlacement) (g : Grid), gridShape R C g →
      gridShape R C (replayOn g ps) := by
  intro ps
  induction ps with
  | nil => intro g h; exact h
  | cons p rest ih =>
    intro g h
    rw [replayOn_cons]
    exact ih _ (placeWord_shape R C p.word g p.row p.col p.delta_row
      p.delta_col h)

theorem GoodChain_nil (R C : Nat) (words : List Word) (g : Grid) :
    GoodChain R C words g [] := trivial

theorem GoodChain_snoc (R C : Nat) (words : List Word) :
    ∀ (ps : List WordPlacement) (g : Grid) (p : WordPlacement),
      GoodChain R C words g ps →
      (canPlaceWord R C (replayOn g ps) p.word p.row p.col p.delta_row
        p.delta_col).1 = true →
      (p.delta_row, p.delta_col) ∈ DIRECTIONS →
      (p.word ∈ words ∨ p.word = []) →
      GoodChain R C words g (ps ++ [p]) := by
  intro ps
  induction ps with
  | nil =>
    intro g p _ hcan hdir hw
    rw [replayOn_nil] at hcan
    exact ⟨hcan, hdir, hw, trivial⟩
  | cons q rest ih =>
    intro g p hchain hcan hdir hw
    obtain ⟨h1, h2, h3, h4⟩ := hchain
    rw [replayOn_cons] at hcan
    exact ⟨h1, h2, h3, ih _ p h4 hcan hdir hw⟩

theorem goodChain_inBounds (R C : Nat) (words : List Word) :
    ∀ (ps : List WordPlacement) (g : Grid),
      GoodChain R C words g ps → ∀ p ∈ ps, placementInBounds R C p := by
  intro ps
  induction ps with
  | nil => intro g _ p hp; simp at hp
  | cons q rest ih =>
    intro g hchain p hp
    obtain ⟨h1, _, _, h4⟩ := hchain
    rcases List.mem_cons.mp hp with hp | hp
    · subst hp
      intro k hk
      exact ((canPlaceWord_true_iff R C g p.word p.row p.col p.delta_row
        p.delta_col).mp h1 k hk).1
    · exact ih _ h4 p hp

theorem conflictFreePair_symm (p q : WordPlacement)
    (h : ConflictFreePair p q) : ConflictFreePair q p := by
  intro k k' hk hk' hr hc
  exact (h k' k hk' hk hr.symm hc.symm).symm

theorem conflictFreePair_self (p : WordPlacement)
    (hd : ¬(p.delta_row = 0 ∧ p.delta_col = 0)) : ConflictFreePair p p := by
  intro k k' hk hk' hr hc
  have hkk : k = k' := by
    by_contra hne
    have h1 : ((k : Int) - (k' : Int)) * p.delta_row = 0 := by ring_nf; omega
    have h2 : ((k : Int) - (k' : Int)) * p.delta_col = 0 := by ring_nf; omega
    have hkk' : ((k : Int) - (k' : Int)) ≠ 0 := by
      intro hzero
      exact hne (by omega)
    rcases mul_eq_zero.mp h1 with h | h
    · exact hkk' h
    · rcases mul_eq_zero.mp h2 with h' | h'
      · exact hkk' h'
      · exact hd ⟨h, h'⟩
  rw [hkk]

/-- A placement imprinted on the grid stays imprinted along a good
chain, and conflicts with none of the chain's placements (assuming its
word has no `'.'`). -/
theorem imprint_chain (R C : Nat) (words : List Word) :
    ∀ (ps : List WordPlacement) (g : Grid) (p : WordPlacement),
      GoodChain R C words g ps → gridShape R C g →
      ('.' ∉ p.word) → Imprinted g p →
      (∀ q ∈ ps, ConflictFreePair p q) ∧ Imprinted (replayOn g ps) p := by
  intro ps
  induction ps with
  | nil =>
    intro g p _ _ _ himp
    exact ⟨fun q hq => absurd hq (by simp), himp⟩
  | cons q0 rest ih =>
    intro g p hchain hs hdot himp
    obtain ⟨hcan, hdir, _, hrest⟩ := hchain
    have hdirne : ¬(q0.delta_row = 0 ∧ q0.delta_col = 0) := by
      have := DIRECTIONS_ne_zero (q0.delta_row, q0.delta_col) hdir
      simpa using this
    have hpair : ConflictFreePair p q0 := by
      intro k k' hk hk' hr hc
      have hcellp := himp k hk
      have hdotk : p.word.getD k '?' ≠ '.' := by
        intro hcontra
        exact hdot (by
          have hmm : p.word.getD k '?' ∈ p.word := by
            rw [List.getD_eq_getElem _ _ hk]
            exact List.getElem_mem hk
          rw [hcontra] at hmm
          exact hmm)
      have hok := (canPlaceWord_true_iff R C g q0.word q0.row q0.col
        q0.delta_row q0.delta_col).mp hcan k' hk'
      rcases hok.2 with hq | hq
      · rw [← hr, ← hc] at hq
        rw [hcellp] at hq
        exact absurd hq hdotk
      · rw [← hr, ← hc] at hq
        rw [hcellp] at hq
        exact hq
    have himp' : Imprinted
        (placeWord g q0.word q0.row q0.col q0.delta_row q0.delta_col) p := by
      intro k hk
      by_cases htouch : ∃ k', k' < q0.word.length ∧
          p.row + (k : Int) * p.delta_row =
            q0.row + (k' : Int) * q0.delta_row ∧
          p.col + (k : Int) * p.delta_col =
            q0.col + (k' : Int) * q0.delta_col
      · obtain ⟨k', hk', hr, hc⟩ := htouch
        rw [hr, hc]
        have hbk' := ((canPlaceWord_true_iff R C g q0.word q0.row q0.col
          q0.delta_row q0.delta_col).mp hcan k' hk').1
        rw [placeWord_sets R C q0.word g q0.row q0.col q0.delta_row
          q0.delta_col hdirne hs k' hk' hbk']
        rw [← hpair k k' hk hk' hr hc]
      · push_neg at htouch
        have hframe := placeWord_frame q0.word g q0.row q0.col q0.delta_row
          q0.delta_col (p.row + (k : Int) * p.delta_row)
          (p.col + (k : Int) * p.delta_col)
          (fun k' hk' hcontra => (htouch k' hk' hcontra.1) hcontra.2)
        rw [hframe]
        exact himp k hk
    have := ih (placeWord g q0.word q0.row q0.col q0.delta_row q0.delta_col)
      p hrest
      (placeWord_shape R C q0.word g q0.row q0.col q0.delta_row q0.delta_col hs)
      hdot himp'
    refine ⟨?_, ?_⟩
    · intro q hq
      rcases List.mem_cons.mp hq with hq | hq
      · rw [hq]; exact hpair
      · exact this.1 q hq
    · rw [replayOn_cons]
      exact this.2

/-- A good chain on a well-shaped grid whose words avoid `'.'` is
pairwise conflict-free. -/
theorem goodChain_conflictFree (R C : Nat) (words : List Word) :
    ∀ (ps : List WordPlacement) (g : Grid),
      GoodChain R C words g ps → gridShape R C g →
      (∀ p ∈ ps, '.' ∉ p.word) → ConflictFree ps := by
  intro ps
  induction ps with
  | nil => intro g _ _ _ p hp; simp at hp
  | cons p0 rest ih =>
    intro g hchain hs hdot
    obtain ⟨hcan, hdir, _, hrest⟩ := hchain
    have hdirne : ¬(p0.delta_row = 0 ∧ p0.delta_col = 0) := by
      have := DIRECTIONS_ne_zero (p0.delta_row, p0.delta_col) hdir
      simpa using this
    have hs' : gridShape R C
        (placeWord g p0.word p0.row p0.col p0.delta_row p0.delta_col) :=
      placeWord_shape R C p0.word g p0.row p0.col p0.delta_row p0.delta_col hs
    have himp0 : Imprinted
        (placeWord g p0.word p0.row p0.col p0.delta_row p0.delta_col) p0 := by
      intro k hk
      have hbk := ((canPlaceWord_true_iff R C g p0.word p0.row p0.col
        p0.delta_row p0.delta_col).mp hcan k hk).1
      exact placeWord_sets R C p0.word g p0.row p0.col p0.delta_row
        p0.delta_col hdirne hs k hk hbk
    have hp0rest := imprint_chain R C words rest
      (placeWord g p0.word p0.row p0.col p0.delta_row p0.delta_col) p0
      hrest hs' (hdot p0 (List.mem_cons_self p0 rest)) himp0
    have hrestCF := ih _ hrest hs'
      (fun p hp => hdot p (List.mem_cons_of_mem p0 hp))
    intro p hp q hq
    rcases List.mem_cons.mp hp with hp | hp <;>
      rcases List.mem_cons.mp hq with hq | hq
    · rw [hp, hq]
      exact conflictFreePair_self p0 hdirne
    · rw [hp]
      exact hp0rest.1 q hq
    · rw [hq]
      exact conflictFreePair_symm p0 p (hp0rest.1 p hp)
    · exact hrestCF p hp q hq

/-! ### Invariant of the search state -/

/-- The in-progress branch: its grid is the replay of its path onto the
blank grid, and the path is a good chain. -/
def GoodBranch (R C : Nat) (words : List Word) (g : Grid)
    (cur : List WordPlacement) : Prop :=
  g = replayOn (blankGrid R C) cur ∧
    GoodChain R C words (blankGrid R C) cur

/-- Invariant of the `best_result` record: counters are consistent with
the stored placement list, and the stored grid is either the
default-constructed empty one (never updated) or the replay of a good
chain. -/
def GoodBest (R C : Nat) (words : List Word) (b : PuzzleResult) : Prop :=
  b.num_placed = b.placements.length ∧
  b.total_overlap_score = calculateOverlapScore R C b.placements ∧
  ((b.grid = [] ∧ b.placements = []) ∨
    (b.grid = replayOn (blankGrid R C) b.placements ∧
      GoodChain R C words (blankGrid R C) b.placements))

theorem goodBest_init (R C : Nat) (words : List Word) :
    GoodBest R C words initResult := by
  refine ⟨rfl, ?_, Or.inl ⟨rfl, rfl⟩⟩
  simp [initResult, calculateOverlapScore]

theorem updateBest_good (R C : Nat) (words : List Word) (g : Grid)
    (cur : List WordPlacement) (b : PuzzleResult)
    (hbr : GoodBranch R C words g cur) (hb : GoodBest R C words b) :
    GoodBest R C words
      (updateBest g cur (calculateOverlapScore R C cur) b) := by
  by_cases h : lexLT (bestPair b) (cur.length, calculateOverlapScore R C cur)
  · rw [updateBest_lt g cur _ b h]
    exact ⟨rfl, rfl, Or.inr ⟨hbr.1, hbr.2⟩⟩
  · rw [updateBest_not_lt g cur _ b h]
    exact hb

theorem mem_genCandidates (R C : Nat) (g : Grid) (w : Word)
    (cd : Candidate) (h : cd ∈ genCandidates R C g w) :
    (canPlaceWord R C g w cd.r cd.c cd.dr cd.dc).1 = true ∧
      (cd.dr, cd.dc) ∈ DIRECTIONS := by
  unfold genCandidates at h
  rw [List.mem_flatMap] at h
  obtain ⟨r, _, h⟩ := h
  rw [List.mem_flatMap] at h
  obtain ⟨c, _, h⟩ := h
  rw [List.mem_filterMap] at h
  obtain ⟨d, hd, h⟩ := h
  by_cases hcp : (canPlaceWord R C g w (r : Int) (c : Int) d.1 d.2).1
  · rw [if_pos hcp] at h
    have hcd := Option.some_injective _ h
    rw [← hcd]
    exact ⟨hcp, hd⟩
  · rw [if_neg hcp] at h
    exact absurd h (by simp)

theorem mem_sortCandidates (R C : Nat) (l : List Candidate)
    (cd : Candidate) :
    cd ∈ sortCandidates R C l ↔ cd ∈ l :=
  mem_sortBy (candLE R C) cd l

theorem getD_mem_or_nil (words : List Word) (i : Nat) :
    words.getD i [] ∈ words ∨ words.getD i [] = [] := by
  by_cases h : i < words.length
  · left
    rw [List.getD_eq_getElem _ _ h]
    exact List.getElem_mem h
  · right
    exact List.getD_eq_default _ _ (by omega)

theorem candLoop_good (clock : Nat → Int) (limit : Int) (R C : Nat)
    (words : List Word)
    (recurse : Grid → List WordPlacement → SolveState → SolveState)
    (word : Word) (hword : word ∈ words ∨ word = [])
    (hrec : ∀ g cu s, GoodBranch R C words g cu →
      GoodBest R C words s.best → GoodBest R C words (recurse g cu s).best) :
    ∀ (cands : List Candidate) (grid : Grid) (cur : List WordPlacement)
      (st : SolveState),
      (∀ cd ∈ cands,
        (canPlaceWord R C grid word cd.r cd.c cd.dr cd.dc).1 = true ∧
          (cd.dr, cd.dc) ∈ DIRECTIONS) →
      GoodBranch R C words grid cur → GoodBest R C words st.best →
      GoodBest R C words
        (candLoop clock limit recurse word cands grid cur st).1.best := by
  intro cands
  induction cands with
  | nil => intro grid cur st _ _ hst; exact hst
  | cons cd rest ih =>
    intro grid cur st hcands hbr hst
    simp only [candLoop]
    by_cases ht : hasTimedOut (clock st.t) limit
    · simp only [ht, if_pos]
      exact hst
    · simp only [ht, if_neg, Bool.not_eq_true]
      have hcd := hcands cd (List.mem_cons_self cd rest)
      have hbr' : GoodBranch R C words
          (placeWord grid word cd.r cd.c cd.dr cd.dc)
          (cur ++ [⟨word, cd.r, cd.c, cd.dr, cd.dc⟩]) := by
        constructor
        · rw [replayOn_snoc, ← hbr.1]
        · apply GoodChain_snoc R C words cur (blankGrid R C)
            ⟨word, cd.r, cd.c, cd.dr, cd.dc⟩ hbr.2
          · rw [← hbr.1]
            exact hcd.1
          · exact hcd.2
          · exact hword
      apply ih grid cur _ (fun cd' hcd' =>
        hcands cd' (List.mem_cons_of_mem cd hcd')) hbr
      exact hrec _ _ { best := st.best, t := st.t + 1 } hbr' hst

theorem solveRec_good (clock : Nat → Int) (limit : Int) (R C : Nat)
    (words : List Word) :
    ∀ (rem : List Nat) (grid : Grid) (cur : List WordPlacement)
      (st : SolveState),
      GoodBranch R C words grid cur → GoodBest R C words st.best →
      GoodBest R C words
        (solveRec clock limit R C words rem grid cur st).best := by
  intro rem
  induction rem with
  | nil =>
    intro grid cur st hbr hst
    rw [solveRec]
    by_cases ht : hasTimedOut (clock st.t) limit
    · simp only [ht, if_pos]
      exact hst
    · simp only [ht, if_neg, Bool.not_eq_true]
      exact updateBest_good R C words grid cur st.best hbr hst
  | cons widx rest ih =>
    intro grid cur st hbr hst
    rw [solveRec]
    by_cases ht : hasTimedOut (clock st.t) limit
    · simp only [ht, if_pos]
      exact hst
    · simp only [ht, if_neg, Bool.not_eq_true]
      have hupd : GoodBest R C words
          (updateBest grid cur (calculateOverlapScore R C cur) st.best) :=
        updateBest_good R C words grid cur st.best hbr hst
      by_cases hprune : cur.length + (widx :: rest).length ≤
          (updateBest grid cur (calculateOverlapScore R C cur)
            st.best).num_placed
      · simp only [hprune, if_pos]
        exact hupd
      · simp only [hprune, if_neg, not_false_iff]
        set res := candLoop clock limit
          (fun g cu s => solveRec clock limit R C words rest g cu s)
          (words.getD widx [])
          (sortCandidates R C (genCandidates R C grid (words.getD widx [])))
          grid cur
          { best := updateBest grid cur (calculateOverlapScore R C cur) st.best,
            t := st.t + 1 } with hresdef
        have hloop : GoodBest R C words res.1.best := by
          rw [hresdef]
          apply candLoop_good clock limit R C words
            (fun g cu s => solveRec clock limit R C words rest g cu s)
            (words.getD widx []) (getD_mem_or_nil words widx)
            (fun g cu s hg hs => ih g cu s hg hs)
            (sortCandidates R C (genCandidates R C grid (words.getD widx [])))
            grid cur
            { best := updateBest grid cur (calculateOverlapScore R C cur)
                st.best,
              t := st.t + 1 }
            ?_ hbr hupd
          intro cd hcd
          rw [mem_sortCandidates] at hcd
          exact mem_genCandidates R C grid (words.getD widx []) cd hcd
        by_cases hres : res.2
        · simp only [hres, if_pos]
          exact hloop
        · simp only [hres, if_neg, Bool.not_eq_true]
          by_cases ht2 : hasTimedOut (clock res.1.t) limit
          · simp only [ht2, if_pos]
            exact hloop
          · simp only [ht2, if_neg, Bool.not_eq_true]
            exact ih grid cur { best := res.1.best, t := res.1.t + 1 }
              hbr hloop

/-- The final best record of the search phase satisfies the invariant. -/
theorem searchBest_good (clock : Nat → Int) (words : List Word)
    (req : List Bool) (rows cols : Nat) (limit : Int) :
    GoodBest rows cols words (searchBest clock words req rows cols limit) := by
  unfold searchBest
  apply solveRec_good clock limit rows cols words (wordOrder words req)
    (blankGrid rows cols) [] { best := initResult, t := 0 }
  · exact ⟨rfl, trivial⟩
  · exact goodBest_init rows cols words

theorem goodChain_words (R C : Nat) (words : List Word) :
    ∀ (ps : List WordPlacement) (g : Grid),
      GoodChain R C words g ps →
      ∀ p ∈ ps, p.word ∈ words ∨ p.word = [] := by
  intro ps
  induction ps with
  | nil => intro g _ p hp; simp at hp
  | cons q rest ih =>
    intro g hchain p hp
    obtain ⟨_, _, h3, h4⟩ := hchain
    rcases List.mem_cons.mp hp with hp | hp
    · rw [hp]; exact h3
    · exact ih _ h4 p hp

/-! ### Claim C3 -/

/-- C3: the overlap scorer equals the spec's direct recount (sum over
all grid cells of `max(0, usage − 1)`, a cell used by `n ≥ 1` placements
contributing `n − 1`), and the overlap score of the returned result is
exactly the scorer applied to the returned placements. -/
theorem claim_C3_overlap_score :
    (∀ (R C : Nat) (ps : List WordPlacement),
      calculateOverlapScore R C ps = specOverlapScore R C ps) ∧
    (∀ (clock : Nat → Int) (rng : Nat → Nat) (words : List Word)
      (req : List Bool) (rows cols : Nat) (limit : Int),
      (generateWordSearch clock rng words req rows cols
        limit).total_overlap_score =
      calculateOverlapScore rows cols
        (generateWordSearch clock rng words req rows cols
          limit).placements) := by
  constructor
  · exact calculateOverlapScore_eq_spec
  · intro clock rng words req rows cols limit
    have hg := searchBest_good clock words req rows cols limit
    simp only [generateWordSearch]
    exact hg.2.1

/-- Witness for C3: score of a concrete three-way shared cell is 2, and
it matches the spec recount. -/
theorem claim_C3_witness :
    calculateOverlapScore 2 2
      [⟨['X'], 0, 0, 0, 1⟩, ⟨['X'], 0, 0, 1, 0⟩, ⟨['X'], 0, 0, 1, 1⟩] =
      specOverlapScore 2 2
        [⟨['X'], 0, 0, 0, 1⟩, ⟨['X'], 0, 0, 1, 0⟩, ⟨['X'], 0, 0, 1, 1⟩] ∧
    calculateOverlapScore 2 2
      [⟨['X'], 0, 0, 0, 1⟩, ⟨['X'], 0, 0, 1, 0⟩, ⟨['X'], 0, 0, 1, 1⟩] = 2 :=
  ⟨claim_C3_overlap_score.1 2 2
      [⟨['X'], 0, 0, 0, 1⟩, ⟨['X'], 0, 0, 1, 0⟩, ⟨['X'], 0, 0, 1, 1⟩],
    by decide⟩

/-! ### Claim C5 -/

/-- C5: for words containing no `'.'` (in particular all valid inputs of
uppercase words), the returned placements are pairwise conflict-free:
each placement lies fully in bounds and any shared cell receives the
same letter from both placements. -/
theorem claim_C5_conflict_free (clock : Nat → Int) (rng : Nat → Nat)
    (words : List Word) (req : List Bool) (rows cols : Nat) (limit : Int)
    (hw : ∀ w ∈ words, '.' ∉ w) :
    (∀ p ∈ (generateWordSearch clock rng words req rows cols
        limit).placements, placementInBounds rows cols p) ∧
    ConflictFree (generateWordSearch clock rng words req rows cols
      limit).placements := by
  have hg := searchBest_good clock words req rows cols limit
  have hps : (generateWordSearch clock rng words req rows cols
      limit).placements =
      (searchBest clock words req rows cols limit).placements := by
    simp only [generateWordSearch]
  rw [hps]
  rcases hg.2.2 with hinit | hgood
  · rw [hinit.2]
    exact ⟨fun p hp => absurd hp (by simp), fun p hp => absurd hp (by simp)⟩
  · constructor
    · exact goodChain_inBounds rows cols words _ _ hgood.2
    · apply goodChain_conflictFree rows cols words _ _ hgood.2
        (gridShape_blank rows cols)
      intro p hp
      rcases goodChain_words rows cols words _ _ hgood.2 p hp with hmem | hnil
      · exact hw p.word hmem
      · rw [hnil]; simp

/-- Witness for C5 at a concrete dot-free input. -/
theorem claim_C5_witness :
    (∀ w ∈ ([['B']] : List Word), '.' ∉ w) ∧
    ConflictFree (generateWordSearch (fun t => if t < 3 then 0 else 1000000)
      (fun _ => 0) [['B']] [true] 1 2 1000).placements :=
  ⟨by decide,
    (claim_C5_conflict_free (fun t => if t < 3 then 0 else 1000000)
      (fun _ => 0) [['B']] [true] 1 2 1000 (by decide)).2⟩

/-! ### Claim C6 -/

theorem count_filter_split (p : Word → Bool) (l : List Word) (w : Word) :
    (l.filter p).count w + (l.filter (fun x => !(p x))).count w =
      l.count w := by
  induction l with
  | nil => simp
  | cons x xs ih =>
    have hfp : (x :: xs).filter p =
        if p x then x :: xs.filter p else xs.filter p := by
      simp [List.filter_cons]
    have hfnp : (x :: xs).filter (fun y => !(p y)) =
        if p x then xs.filter (fun y => !(p y))
        else x :: xs.filter (fun y => !(p y)) := by
      by_cases hp : p x <;> simp [List.filter_cons, hp]
    have hcx : ∀ l' : List Word, (x :: l').count w =
        l'.count w + if x = w then 1 else 0 := by
      intro l'
      by_cases hxw : x = w
      · subst hxw
        simp [List.count_cons]
      · simp [List.count_cons, hxw]
    rw [hfp, hfnp, hcx xs]
    by_cases hp : p x
    · rw [if_pos hp, if_pos hp, hcx (xs.filter p)]
      omega
    · rw [if_neg hp, if_neg hp, hcx (xs.filter (fun y => !(p y)))]
      omega

/-- C6: the returned `placed_words` and `unplaced_words` lists partition
the input word sequence exactly — per-word occurrence counts add up to
the input's counts, and the two lists are disjoint. -/
theorem claim_C6_partition (clock : Nat → Int) (rng : Nat → Nat)
    (words : List Word) (req : List Bool) (rows cols : Nat) (limit : Int) :
    (∀ w : Word,
      (generateWordSearch clock rng words req rows cols
        limit).placed_words.count w +
      (generateWordSearch clock rng words req rows cols
        limit).unplaced_words.count w = words.count w) ∧
    (∀ w ∈ (generateWordSearch clock rng words req rows cols
        limit).placed_words,
      w ∉ (generateWordSearch clock rng words req rows cols
        limit).unplaced_words) := by
  simp only [generateWordSearch]
  constructor
  · intro w
    exact count_filter_split _ words w
  · intro w hw hw'
    rw [List.mem_filter] at hw hw'
    rw [hw.2] at hw'
    simp at hw'

/-- Witness for C6 at a concrete input: "B" is placed, the length-2 word
is not. -/
theorem claim_C6_witness :
    (generateWordSearch (fun t => if t < 3 then 0 else 1000000) (fun _ => 0)
      [['B'], ['C', 'C']] [true, false] 1 2 1000).placed_words.count ['B'] +
    (generateWordSearch (fun t => if t < 3 then 0 else 1000000) (fun _ => 0)
      [['B'], ['C', 'C']] [true, false] 1 2 1000).unplaced_words.count ['B'] =
    ([['B'], ['C', 'C']] : List Word).count ['B'] :=
  (claim_C6_partition (fun t => if t < 3 then 0 else 1000000) (fun _ => 0)
    [['B'], ['C', 'C']] [true, false] 1 2 1000).1 ['B']

/-! ### The random-fill step and claim C1 -/

theorem fill_letter_ne_dot (v : Nat) :
    Char.ofNat ('A'.toNat + v % 26) ≠ '.' := by
  have h26 : v % 26 < 26 := Nat.mod_lt _ (by norm_num)
  interval_cases hv : v % 26 <;> decide

theorem getCell_dot_in_range (g : Grid) (r c : Int)
    (h : getCell g r c = '.') :
    0 ≤ r ∧ 0 ≤ c ∧ r.toNat < g.length ∧
      c.toNat < (g[r.toNat]?.getD []).length := by
  by_cases hg : 0 ≤ r ∧ 0 ≤ c
  · rw [getCell_nonneg g r c hg.1 hg.2] at h
    unfold getCellN at h
    by_cases hr : r.toNat < g.length
    · by_cases hc : c.toNat < (g[r.toNat]?.getD []).length
      · exact ⟨hg.1, hg.2, hr, hc⟩
      · rw [List.getElem?_eq_none (by omega)] at h
        simp at h
    · rw [List.getElem?_eq_none (le_of_not_lt hr)] at h
      simp at h
  · unfold getCell at h
    rw [if_neg hg] at h
    exact absurd h (by decide)

theorem fillLoop_keeps_ne_dot (rng : Nat → Nat) :
    ∀ (cells : List (Nat × Nat)) (k : Nat) (g : Grid) (r c : Int),
      getCell g r c ≠ '.' →
      getCell (fillLoop rng cells k g) r c ≠ '.' := by
  intro cells
  induction cells with
  | nil => intro k g r c h; exact h
  | cons rc rest ih =>
    intro k g r c h
    simp only [fillLoop]
    by_cases hdot : getCell g (rc.1 : Int) (rc.2 : Int) = '.'
    · rw [if_pos hdot]
      apply ih
      by_cases heq : r = (rc.1 : Int) ∧ c = (rc.2 : Int)
      · exfalso
        rw [heq.1, heq.2] at h
        exact h hdot
      · rw [getCell_setCell_ne _ _ _ _ _ _ heq]
        exact h
    · rw [if_neg hdot]
      exact ih k g r c h

theorem fillLoop_fills (rng : Nat → Nat) :
    ∀ (cells : List (Nat × Nat)) (k : Nat) (g : Grid) (r c : Nat),
      (r, c) ∈ cells →
      getCell (fillLoop rng cells k g) (r : Int) (c : Int) ≠ '.' := by
  intro cells
  induction cells with
  | nil => intro k g r c h; simp at h
  | cons rc rest ih =>
    intro k g r c hmem
    simp only [fillLoop]
    rcases List.mem_cons.mp hmem with heq | hmem'
    · have hr : rc.1 = r := by rw [← heq]
      have hc : rc.2 = c := by rw [← heq]
      subst hr hc
      by_cases hdot : getCell g (rc.1 : Int) (rc.2 : Int) = '.'
      · rw [if_pos hdot]
        apply fillLoop_keeps_ne_dot
        obtain ⟨h1, h2, h3, h4⟩ := getCell_dot_in_range g _ _ hdot
        rw [getCell_setCell_self _ _ _ _ h1 h2 h3 h4]
        exact fill_letter_ne_dot (rng k)
      · rw [if_neg hdot]
        exact fillLoop_keeps_ne_dot rng rest k g _ _ hdot
    · by_cases hdot : getCell g (rc.1 : Int) (rc.2 : Int) = '.'
      · rw [if_pos hdot]
        exact ih _ _ r c hmem'
      · rw [if_neg hdot]
        exact ih _ _ r c hmem'

theorem mem_cellsRowMajor (rows cols r c : Nat) :
    (r, c) ∈ cellsRowMajor rows cols ↔ r < rows ∧ c < cols := by
  unfold cellsRowMajor
  rw [List.mem_flatMap]
  constructor
  · rintro ⟨a, ha, hmem⟩
    rw [List.mem_map] at hmem
    obtain ⟨b, hb, hab⟩ := hmem
    rw [List.mem_range] at ha hb
    have h1 : a = r := congrArg Prod.fst hab
    have h2 : b = c := congrArg Prod.snd hab
    omega
  · rintro ⟨hr, hc⟩
    exact ⟨r, List.mem_range.mpr hr,
      List.mem_map.mpr ⟨c, List.mem_range.mpr hc, rfl⟩⟩

theorem fillGrid_no_dot (rng : Nat → Nat) (rows cols : Nat) (g : Grid)
    (r c : Nat) (hr : r < rows) (hc : c < cols) :
    getCell (fillGrid rng rows cols g) (r : Int) (c : Int) ≠ '.' :=
  fillLoop_fills rng (cellsRowMajor rows cols) 0 g r c
    ((mem_cellsRowMajor rows cols r c).mpr ⟨hr, hc⟩)

theorem coversCell_false_frame (p : WordPlacement) (r c : Int)
    (h : coversCell p r c = false) :
    ∀ k, k < p.word.length →
      ¬(r = p.row + (k : Int) * p.delta_row ∧
        c = p.col + (k : Int) * p.delta_col) := by
  intro k hk hcontra
  unfold coversCell at h
  rw [List.any_eq_false] at h
  exact absurd (by simpa using hcontra) (by simpa using h k (List.mem_range.mpr hk))

theorem replayOn_frame :
    ∀ (ps : List WordPlacement) (g : Grid) (r c : Int),
      coveredAny ps r c = false →
      getCell (replayOn g ps) r c = getCell g r c := by
  intro ps
  induction ps with
  | nil => intro g r c _; rfl
  | cons p rest ih =>
    intro g r c h
    unfold coveredAny at h
    rw [List.any_cons, Bool.or_eq_false_iff] at h
    rw [replayOn_cons, ih _ _ _ (by
      unfold coveredAny
      exact h.2)]
    exact placeWord_frame p.word g p.row p.col p.delta_row p.delta_col r c
      (coversCell_false_frame p r c h.1)

/-- Cells of the search-phase best grid not covered by its placements
hold the empty sentinel. -/
theorem searchBest_uncovered_dot (clock : Nat → Int) (words : List Word)
    (req : List Bool) (rows cols : Nat) (limit : Int) (r c : Nat)
    (hr : r < (searchBest clock words req rows cols limit).grid.length)
    (hc : c < ((searchBest clock words req rows cols
      limit).grid.getD r []).length)
    (hcov : coveredAny (searchBest clock words req rows cols
      limit).placements (r : Int) (c : Int) = false) :
    getCell (searchBest clock words req rows cols limit).grid
      (r : Int) (c : Int) = '.' := by
  have hg := searchBest_good clock words req rows cols limit
  rcases hg.2.2 with hinit | hgood
  · rw [hinit.1] at hr
    simp at hr
  · have hshape : gridShape rows cols
        (searchBest clock words req rows cols limit).grid := by
      rw [hgood.1]
      exact replayOn_shape rows cols _ _ (gridShape_blank rows cols)
    have hrr : r < rows := by
      rw [← hshape.1]; exact hr
    have hcc : c < cols := by
      have hmemrow : (searchBest clock words req rows cols
          limit).grid.getD r [] ∈
          (searchBest clock words req rows cols limit).grid := by
        rw [List.getD_eq_getElem _ _ hr]
        exact List.getElem_mem hr
      rw [← hshape.2 _ hmemrow]
      exact hc
    have hbnd : isInBounds rows cols (r : Int) (c : Int) := by
      unfold isInBounds
      refine ⟨by positivity, by exact_mod_cast hrr, by positivity,
        by exact_mod_cast hcc⟩
    rw [hgood.1]
    rw [replayOn_frame _ _ _ _ hcov]
    exact getCell_blank rows cols _ _ hbnd

/-- C1 (amended): the claim as stated fails because `generateWordSearch`
itself performs the random fill before returning (see
`claim_C1_counterexample`); what holds is that the solver's best grid
has `'.'` on every cell not covered by its placements just before the
fill step inside `generateWordSearch`, and that the fill then leaves no
`'.'` anywhere in the returned grid. -/
theorem claim_C1_uncovered_amended (clock : Nat → Int) (rng : Nat → Nat)
    (words : List Word) (req : List Bool) (rows cols : Nat) (limit : Int) :
    (∀ r c : Nat,
      r < (searchBest clock words req rows cols limit).grid.length →
      c < ((searchBest clock words req rows cols limit).grid.getD
        r []).length →
      coveredAny (searchBest clock words req rows cols limit).placements
        (r : Int) (c : Int) = false →
      getCell (searchBest clock words req rows cols limit).grid
        (r : Int) (c : Int) = '.') ∧
    (∀ r c : Nat, r < rows → c < cols →
      getCell (generateWordSearch clock rng words req rows cols limit).grid
        (r : Int) (c : Int) ≠ '.') := by
  constructor
  · intro r c hr hc hcov
    exact searchBest_uncovered_dot clock words req rows cols limit r c
      hr hc hcov
  · intro r c hr hc
    have hgrid : (generateWordSearch clock rng words req rows cols
        limit).grid =
        fillGrid rng rows cols
          (searchBest clock words req rows cols limit).grid := by
      simp only [generateWordSearch]
    rw [hgrid]
    exact fillGrid_no_dot rng rows cols _ r c hr hc

/-- Witness for the amended C1 at a concrete input. -/
theorem claim_C1_amended_witness :
    (0 : Nat) < 1 ∧ (0 : Nat) < 2 ∧
    getCell (generateWordSearch (fun t => if t < 3 then 0 else 1000000)
      (fun _ => 0) [['B']] [true] 1 2 1000).grid 0 0 ≠ '.' :=
  ⟨by decide, by decide,
    (claim_C1_uncovered_amended (fun t => if t < 3 then 0 else 1000000)
      (fun _ => 0) [['B']] [true] 1 2 1000).2 0 0 (by decide) (by decide)⟩

/-- C1 counterexample: with one word "B" on a 1×2 grid (a clock that
times out after three polls, random stream constantly 0), the returned
result places "B" at (0,1), leaves cell (0,0) uncovered by every
placement, and that cell holds the random letter 'A', not the empty
sentinel — `generateWordSearch` fills unused cells itself before
returning. -/
theorem claim_C1_counterexample :
    (generateWordSearch (fun t => if t < 3 then 0 else 1000000) (fun _ => 0)
      [['B']] [true] 1 2 1000).placements = [⟨['B'], 0, 1, 0, 1⟩] ∧
    coveredAny (generateWordSearch (fun t => if t < 3 then 0 else 1000000)
      (fun _ => 0) [['B']] [true] 1 2 1000).placements 0 0 = false ∧
    getCell (generateWordSearch (fun t => if t < 3 then 0 else 1000000)
      (fun _ => 0) [['B']] [true] 1 2 1000).grid 0 0 = 'A' ∧
    ('A' : Char) ≠ '.' := by
  refine ⟨?_, ?_, ?_, by decide⟩ <;> decide

/-! ### Claim C9 -/

/-- C9: with `timeLimitMs = 0` (and a nonnegative clock, as a wall clock
is), the very first deadline check fires: the search returns with the
best record still in its initial state after exactly one poll, and the
result carries `num_placed = 0` and no placements.  Note the C++ then
runs its random-fill loop over `best_result.grid`, which is still the
default-constructed empty vector — an out-of-bounds `vector` access for
any positive `rows`/`cols`; this model totalizes those accesses as
no-ops, under which the claimed empty-state result is returned. -/
theorem claim_C9_timeout_zero (clock : Nat → Int) (rng : Nat → Nat)
    (words : List Word) (req : List Bool) (rows cols : Nat)
    (hclock : ∀ t, 0 ≤ clock t) :
    solveRec clock 0 rows cols words (wordOrder words req)
      (blankGrid rows cols) [] { best := initResult, t := 0 } =
      { best := initResult, t := 1 } ∧
    (generateWordSearch clock rng words req rows cols 0).num_placed = 0 ∧
    (generateWordSearch clock rng words req rows cols 0).placements = [] := by
  have h0 : hasTimedOut (clock 0) 0 = true := by
    unfold hasTimedOut
    exact decide_eq_true (hclock 0)
  have hsolve : solveRec clock 0 rows cols words (wordOrder words req)
      (blankGrid rows cols) [] { best := initResult, t := 0 } =
      { best := initResult, t := 1 } := by
    rw [solveRec]
    simp [h0]
  refine ⟨hsolve, ?_, ?_⟩
  · simp only [generateWordSearch, searchBest]
    rw [hsolve]
    rfl
  · simp only [generateWordSearch, searchBest]
    rw [hsolve]
    rfl

/-- Witness for C9 with the constant-zero clock. -/
theorem claim_C9_witness :
    (∀ t : Nat, (0 : Int) ≤ (fun _ => (0 : Int)) t) ∧
    (generateWordSearch (fun _ => (0 : Int)) (fun _ => 0) [['C', 'A', 'T']]
      [true] 3 3 0).num_placed = 0 ∧
    (generateWordSearch (fun _ => (0 : Int)) (fun _ => 0) [['C', 'A', 'T']]
      [true] 3 3 0).placements = [] :=
  ⟨fun _ => le_refl 0,
    (claim_C9_timeout_zero (fun _ => (0 : Int)) (fun _ => 0) [['C', 'A', 'T']]
      [true] 3 3 (fun _ => le_refl 0)).2.1,
    (claim_C9_timeout_zero (fun _ => (0 : Int)) (fun _ => 0) [['C', 'A', 'T']]
      [true] 3 3 (fun _ => le_refl 0)).2.2⟩

end WordSearch
